import Mathlib

/-!
# TinyRNN `HardcodedNetwork`: kernel assembly, export, dispatch, persistence

A shallow embedding of `Source/HardcodedNetwork.h`.  The two assembling loops
(`compileFeedKernels`, `compileTrainKernels`) are written as folds over the
layers with the loop variables (`result`, `currentKernel`,
`currentKernelExpressionsCounter`) as explicit state.  `size_t` arithmetic is
`Nat` arithmetic reduced modulo `2 ^ 64`.

The build flag `TINYRNN_OPENCL_ACCELERATION` and what the OpenCL calls observe are
the parameter `Acceleration`; `feed` and `train` return the calls they make on the
command queue.  `asStandalone` returns a fault when it reads `front()` of an empty
vector.  The persistence record is a tree of properties and named children, and
`deserialize` returns `none` when a record it reads is missing.
-/

namespace TinyRNN

/-! ## Data model -/

/-- Number of values of `size_t` / `unsigned long`. -/
def wordSize : Nat := 2 ^ 64

/-- Modelled from the spec: `KernelSentence` (declared in `HardcodedNeuron.h`,
which is not among the sources) is a fragment with a known expression count that
renders to a source string.  Only its two observers used by the assembler are
kept, both as free fields. -/
structure KernelSentence where
  /-- Result of `getSize()`. -/
  getSize : Nat
  /-- Result of `build()`. -/
  build : String
deriving DecidableEq, Repr, Inhabited

/-- Modelled from the spec: a `HardcodedNeuron` exposes three fragments. -/
structure HardcodedNeuron where
  getFeedChunk : KernelSentence
  getTraceChunk : KernelSentence
  getTrainChunk : KernelSentence
deriving DecidableEq, Repr, Inhabited

/-- The type `HardcodedLayers = std::vector<HardcodedNeuron::Vector>`. -/
abbrev HardcodedLayers := List (List HardcodedNeuron)

/-- Modelled from the spec: `Value`, the numeric type of `Common.h` (`double` or
`float`), not among the sources.  A value is kept as its bit pattern; no
arithmetic on values is modelled. -/
structure Value where
  bits : Nat
deriving DecidableEq, Repr, Inhabited

/-- The constant `0.0`. -/
def Value.zero : Value := { bits := 0 }

/-- The type `HardcodedTrainingContext::RawData = std::vector<Value>`. -/
abbrev RawData := List Value

/-- Modelled from the spec: the `HardcodedTrainingContext` consumed by the
assembler (`HardcodedTrainingContext.h` is not among the sources), reduced to its
four fragment builders and its two buffers; each builder is a field, so it yields
the same text at every call during one assembly.  `valueIsDouble` records the build-time test
`sizeof(Value) == sizeof(double)` (`Value` comes from `Common.h`, not among the
sources). -/
structure HardcodedTrainingContext where
  buildInputsExpressions : String
  buildOutputsExpressions : String
  buildRateExpression : String
  buildTargetsExpressions : String
  valueIsDouble : Bool
  /-- The shared memory buffer, `getMemory()`. -/
  getMemory : List Value := []
  /-- The outputs buffer, `getOutputs()`. -/
  getOutputs : List Value := []
deriving DecidableEq, Repr, Inhabited

/-- The nested class `HardcodedNetwork::Kernel` (without the OpenCL handle). -/
structure Kernel where
  isBuilt : Bool
  numExpressions : Nat
  fullSource : String
  entryPoint : String
deriving DecidableEq, Repr, Inhabited

/-- The constructor `Kernel() : isBuilt(false), numExpressions(0) {}`. -/
def Kernel.new : Kernel :=
  { isBuilt := false, numExpressions := 0, fullSource := "", entryPoint := "" }

/-- The function `valueString()`. -/
def valueString (ctx : HardcodedTrainingContext) : String :=
  if ctx.valueIsDouble then "double" else "float"

/-- The macro `trnn_max(a,b)`: `_a > _b ? _a : _b`. -/
def trnn_max (a b : Nat) : Nat := if a > b then a else b

/-- The local variables of the assembling loops. -/
structure CompileState where
  result : List Kernel
  currentKernel : Option Kernel
  currentKernelExpressionsCounter : Nat
deriving DecidableEq, Repr, Inhabited

/-- State on entry to either loop: empty `result`, null `currentKernel`, counter 0. -/
def CompileState.init : CompileState :=
  { result := [], currentKernel := none, currentKernelExpressionsCounter := 0 }

/-! ## `compileFeedKernels` -/

/-- Function header of a feed kernel. -/
def feedHeader (ctx : HardcodedTrainingContext) (entryPoint : String) : String :=
  "void kernel " ++ entryPoint ++
    "(global const " ++ valueString ctx ++
    " *input, global " ++ valueString ctx ++
    " *output, global " ++ valueString ctx ++ " *x) \x7b\n"

/-- Text assigned to `fullSource` when a feed kernel is created: the function
header followed by `buildInputsExpressions()`. -/
def feedOpening (ctx : HardcodedTrainingContext) (entryPoint : String) : String :=
  feedHeader ctx entryPoint ++ ctx.buildInputsExpressions

/-- Text appended when a feed kernel is closed: `buildOutputsExpressions()`, then
the closing brace. -/
def feedClose (ctx : HardcodedTrainingContext) (fullSource : String) : String :=
  (fullSource ++ ctx.buildOutputsExpressions) ++ "\x7d\n"

/-- Body of the inner loop of `compileFeedKernels` for one neuron. -/
def feedNeuronStep (ctx : HardcodedTrainingContext) (maxExpressions : Nat)
    (st : CompileState) (neuron : HardcodedNeuron) : CompileState :=
  let feedChunk := neuron.getFeedChunk
  let traceChunk := neuron.getTraceChunk
  let numExpressionsToCome := (feedChunk.getSize + traceChunk.getSize) % wordSize
  let shouldStartNewKernel : Bool :=
    st.currentKernel.isNone ||
    decide ((st.currentKernelExpressionsCounter + numExpressionsToCome) % wordSize
      ≥ maxExpressions)
  let st1 : CompileState :=
    if shouldStartNewKernel then
      let st0 : CompileState :=
        match st.currentKernel with
        | some k =>
          { result := st.result ++ [{ k with fullSource := feedClose ctx k.fullSource }]
            currentKernel := some k
            currentKernelExpressionsCounter := 0 }
        | none => st
      let entryPoint := "feed_" ++ toString st0.result.length
      { st0 with
        currentKernel := some { Kernel.new with
          entryPoint := entryPoint
          fullSource := feedOpening ctx entryPoint } }
    else st
  let counter := (st1.currentKernelExpressionsCounter + numExpressionsToCome) % wordSize
  { st1 with
    currentKernelExpressionsCounter := counter
    currentKernel := st1.currentKernel.map fun k =>
      { k with
        numExpressions := counter
        fullSource := k.fullSource ++ (feedChunk.build ++ traceChunk.build) } }

/-- The method `HardcodedNetwork::compileFeedKernels`. -/
def compileFeedKernels (ctx : HardcodedTrainingContext) (targetLayers : HardcodedLayers)
    (maxNumberOfExpressionsPerKernel : Nat) : List Kernel :=
  let maxExpressions := trnn_max maxNumberOfExpressionsPerKernel 100
  let st := targetLayers.foldl
    (fun st layer => layer.foldl (feedNeuronStep ctx maxExpressions) st) CompileState.init
  match st.currentKernel with
  | some k => st.result ++ [{ k with fullSource := feedClose ctx k.fullSource }]
  | none => st.result

/-! ## `compileTrainKernels` -/

/-- Function header of a train kernel. -/
def trainHeader (ctx : HardcodedTrainingContext) (entryPoint : String) : String :=
  "void kernel " ++ entryPoint ++
    "(global const " ++ valueString ctx ++
    " *rate, global const " ++ valueString ctx ++
    " *target, global " ++ valueString ctx ++ " *x) \x7b\n"

/-- Text assigned to `fullSource` when a train kernel is created: the function
header, `buildRateExpression()`, then `buildTargetsExpressions()`. -/
def trainOpening (ctx : HardcodedTrainingContext) (entryPoint : String) : String :=
  (trainHeader ctx entryPoint ++ ctx.buildRateExpression) ++ ctx.buildTargetsExpressions

/-- Text appended when a train kernel is closed: the closing brace only. -/
def trainClose (fullSource : String) : String :=
  fullSource ++ "\x7d\n"

/-- Body of the inner loop of `compileTrainKernels` for one neuron. -/
def trainNeuronStep (ctx : HardcodedTrainingContext) (maxExpressions : Nat)
    (st : CompileState) (neuron : HardcodedNeuron) : CompileState :=
  let trainChunk := neuron.getTrainChunk
  let numExpressionsToCome := trainChunk.getSize % wordSize
  let shouldStartNewKernel : Bool :=
    st.currentKernel.isNone ||
    decide ((st.currentKernelExpressionsCounter + numExpressionsToCome) % wordSize
      > maxExpressions)
  let st1 : CompileState :=
    if shouldStartNewKernel then
      let st0 : CompileState :=
        match st.currentKernel with
        | some k =>
          { result := st.result ++ [{ k with fullSource := trainClose k.fullSource }]
            currentKernel := some k
            currentKernelExpressionsCounter := 0 }
        | none => st
      let entryPoint := "train_" ++ toString st0.result.length
      { st0 with
        currentKernel := some { Kernel.new with
          entryPoint := entryPoint
          fullSource := trainOpening ctx entryPoint } }
    else st
  let counter := (st1.currentKernelExpressionsCounter + numExpressionsToCome) % wordSize
  { st1 with
    currentKernelExpressionsCounter := counter
    currentKernel := st1.currentKernel.map fun k =>
      { k with
        numExpressions := counter
        fullSource := k.fullSource ++ trainChunk.build } }

/-- The method `HardcodedNetwork::compileTrainKernels`: layers from last to first,
neurons of each layer from last to first. -/
def compileTrainKernels (ctx : HardcodedTrainingContext) (targetLayers : HardcodedLayers)
    (maxNumberOfExpressionsPerKernel : Nat) : List Kernel :=
  let maxExpressions := trnn_max maxNumberOfExpressionsPerKernel 100
  let st := targetLayers.reverse.foldl
    (fun st layer => layer.reverse.foldl (trainNeuronStep ctx maxExpressions) st)
    CompileState.init
  match st.currentKernel with
  | some k => st.result ++ [{ k with fullSource := trainClose k.fullSource }]
  | none => st.result

/-! ## The common shape of the two loops

Both loops have the same control flow and differ in the per-neuron size, the
threshold test, and the texts they write.  `PassShape` collects these
differences, `PassShape.step` is the shared loop body, and `PassShape.groups`
records which neurons each kernel receives. -/

/-- What decides the partition into kernels: the size of a neuron and the
threshold test. -/
structure Packing where
  /-- The value `numExpressionsToCome` of a neuron. -/
  size : HardcodedNeuron → Nat
  /-- Threshold test applied to `currentKernelExpressionsCounter + numExpressionsToCome`. -/
  startNew : Nat → Bool

namespace Packing

/-- Value of the counter after the neurons `g` were added to a fresh kernel. -/
def wsum (p : Packing) (g : List HardcodedNeuron) : Nat :=
  g.foldl (fun c n => (c + p.size n) % wordSize) 0

/-- Neurons of the kernels produced when `cur` is already in the open kernel and
`ns` is still to come. -/
def groupsFrom (p : Packing) :
    List HardcodedNeuron → List HardcodedNeuron → List (List HardcodedNeuron)
  | cur, [] => [cur]
  | cur, n :: ns =>
    if p.startNew ((p.wsum cur + p.size n) % wordSize) then
      cur :: groupsFrom p [n] ns
    else
      groupsFrom p (cur ++ [n]) ns

/-- Neurons of the kernels produced for a neuron sequence, kernel by kernel. -/
def groups (p : Packing) : List HardcodedNeuron → List (List HardcodedNeuron)
  | [] => []
  | n :: ns => p.groupsFrom [n] ns

/-- A group respects the threshold: it is a single neuron, or the threshold test
fails on its counter. -/
def Within (p : Packing) (g : List HardcodedNeuron) : Prop :=
  (∃ n, g = [n]) ∨ p.startNew (p.wsum g) = false

end Packing

/-- What one assembling loop is made of. -/
structure PassShape extends Packing where
  /-- Entry point given to the kernel created when `result.size()` is the argument. -/
  entry : Nat → String
  /-- Initial `fullSource` of a kernel with the given entry point. -/
  opening : String → String
  /-- Text appended to `fullSource` for a neuron. -/
  chunk : HardcodedNeuron → String
  /-- Effect on `fullSource` of closing a kernel. -/
  closeFn : String → String

namespace PassShape

/-- Shared loop body. -/
def step (p : PassShape) (st : CompileState) (neuron : HardcodedNeuron) : CompileState :=
  let numExpressionsToCome := p.size neuron
  let shouldStartNewKernel : Bool :=
    st.currentKernel.isNone ||
    p.startNew ((st.currentKernelExpressionsCounter + numExpressionsToCome) % wordSize)
  let st1 : CompileState :=
    if shouldStartNewKernel then
      let st0 : CompileState :=
        match st.currentKernel with
        | some k =>
          { result := st.result ++ [{ k with fullSource := p.closeFn k.fullSource }]
            currentKernel := some k
            currentKernelExpressionsCounter := 0 }
        | none => st
      let entryPoint := p.entry st0.result.length
      { st0 with
        currentKernel := some { Kernel.new with
          entryPoint := entryPoint
          fullSource := p.opening entryPoint } }
    else st
  let counter := (st1.currentKernelExpressionsCounter + numExpressionsToCome) % wordSize
  { st1 with
    currentKernelExpressionsCounter := counter
    currentKernel := st1.currentKernel.map fun k =>
      { k with
        numExpressions := counter
        fullSource := k.fullSource ++ p.chunk neuron } }

/-- Shared epilogue: close and push the kernel still open, if any. -/
def finish (p : PassShape) (st : CompileState) : List Kernel :=
  match st.currentKernel with
  | some k => st.result ++ [{ k with fullSource := p.closeFn k.fullSource }]
  | none => st.result

/-- The whole pass over a neuron sequence. -/
def run (p : PassShape) (neurons : List HardcodedNeuron) : List Kernel :=
  p.finish (neurons.foldl p.step CompileState.init)

/-- Source text of a kernel from the opening for entry point `e` on, before it is
closed, once the neurons `g` were added. -/
def openSource (p : PassShape) (e : String) (g : List HardcodedNeuron) : String :=
  g.foldl (fun s n => s ++ p.chunk n) (p.opening e)

/-- The open kernel created at `result.size() = i` once the neurons `g` were added. -/
def openKernel (p : PassShape) (i : Nat) (g : List HardcodedNeuron) : Kernel :=
  { isBuilt := false
    numExpressions := p.wsum g
    fullSource := p.openSource (p.entry i) g
    entryPoint := p.entry i }

/-- The closed kernel number `i` holding the neurons `g`. -/
def kernelOf (p : PassShape) (i : Nat) (g : List HardcodedNeuron) : Kernel :=
  { isBuilt := false
    numExpressions := p.wsum g
    fullSource := p.closeFn (p.openSource (p.entry i) g)
    entryPoint := p.entry i }

/-- Kernels number `i`, `i+1`, ... holding the given groups of neurons. -/
def kernelsFrom (p : PassShape) : Nat → List (List HardcodedNeuron) → List Kernel
  | _, [] => []
  | i, g :: gs => p.kernelOf i g :: kernelsFrom p (i + 1) gs

end PassShape

/-- Size of a neuron in the feed pass. -/
def feedSize (n : HardcodedNeuron) : Nat :=
  n.getFeedChunk.getSize + n.getTraceChunk.getSize

/-- Size of a neuron in the train pass. -/
def trainSize (n : HardcodedNeuron) : Nat :=
  n.getTrainChunk.getSize

/-- Text of a neuron in the feed pass. -/
def feedChunkText (n : HardcodedNeuron) : String :=
  n.getFeedChunk.build ++ n.getTraceChunk.build

/-- Text of a neuron in the train pass. -/
def trainChunkText (n : HardcodedNeuron) : String :=
  n.getTrainChunk.build

/-- Partition rule of the feed pass: a new kernel when the counter plus the
incoming size reaches `maxExpressions`. -/
def feedPacking (maxExpressions : Nat) : Packing :=
  { size := fun n => feedSize n % wordSize
    startNew := fun v => decide (v ≥ maxExpressions) }

/-- Partition rule of the train pass: a new kernel when the counter plus the
incoming size exceeds `maxExpressions`. -/
def trainPacking (maxExpressions : Nat) : Packing :=
  { size := fun n => trainSize n % wordSize
    startNew := fun v => decide (v > maxExpressions) }

/-- The loop of `compileFeedKernels` as a `PassShape`. -/
def feedShape (ctx : HardcodedTrainingContext) (maxExpressions : Nat) : PassShape :=
  { feedPacking maxExpressions with
    entry := fun i => "feed_" ++ toString i
    opening := feedOpening ctx
    chunk := feedChunkText
    closeFn := feedClose ctx }

/-- The loop of `compileTrainKernels` as a `PassShape`. -/
def trainShape (ctx : HardcodedTrainingContext) (maxExpressions : Nat) : PassShape :=
  { trainPacking maxExpressions with
    entry := fun i => "train_" ++ toString i
    opening := trainOpening ctx
    chunk := trainChunkText
    closeFn := trainClose }

/-- Neurons in the order of the feed pass: layers first to last, neurons first to
last within a layer. -/
def forwardOrder (layers : HardcodedLayers) : List HardcodedNeuron := layers.flatten

/-- Neurons held by each feed kernel, in kernel order. -/
def feedKernelNeurons (layers : HardcodedLayers) (budget : Nat) :
    List (List HardcodedNeuron) :=
  (feedPacking (trnn_max budget 100)).groups (forwardOrder layers)

/-- Neurons held by each train kernel, in kernel order. -/
def trainKernelNeurons (layers : HardcodedLayers) (budget : Nat) :
    List (List HardcodedNeuron) :=
  (trainPacking (trnn_max budget 100)).groups (forwardOrder layers).reverse

/-- Body of a feed kernel holding the neurons `g`: their feed and trace chunks in
order. -/
def feedBody (g : List HardcodedNeuron) : String :=
  String.join (g.map feedChunkText)

/-- Body of a train kernel holding the neurons `g`: their train chunks in order. -/
def trainBody (g : List HardcodedNeuron) : String :=
  String.join (g.map trainChunkText)

/-- The feed kernel number `i` holding exactly the neurons `g`. -/
def feedKernelOf (ctx : HardcodedTrainingContext) (i : Nat) (g : List HardcodedNeuron) :
    Kernel :=
  { isBuilt := false
    numExpressions := (g.map feedSize).sum % wordSize
    fullSource := feedHeader ctx ("feed_" ++ toString i) ++ ctx.buildInputsExpressions
      ++ feedBody g ++ ctx.buildOutputsExpressions ++ "\x7d\n"
    entryPoint := "feed_" ++ toString i }

/-- The train kernel number `i` holding exactly the neurons `g`. -/
def trainKernelOf (ctx : HardcodedTrainingContext) (i : Nat) (g : List HardcodedNeuron) :
    Kernel :=
  { isBuilt := false
    numExpressions := (g.map trainSize).sum % wordSize
    fullSource := trainHeader ctx ("train_" ++ toString i) ++ ctx.buildRateExpression
      ++ ctx.buildTargetsExpressions ++ trainBody g ++ "\x7d\n"
    entryPoint := "train_" ++ toString i }

/-! ## `HardcodedNetwork` and `isBuilt` -/

/-- The data members of `HardcodedNetwork` (without the OpenCL handles). -/
structure HardcodedNetwork where
  trainingContext : HardcodedTrainingContext
  feedKernels : List Kernel
  trainKernels : List Kernel
deriving DecidableEq, Repr, Inhabited

/-- The method `HardcodedNetwork::isBuilt`. -/
def HardcodedNetwork.isBuilt (net : HardcodedNetwork) : Bool :=
  let built : Bool := (!net.feedKernels.isEmpty && !net.trainKernels.isEmpty)
  let built := net.feedKernels.foldl (fun built kernel => built && kernel.isBuilt) built
  let built := net.trainKernels.foldl (fun built kernel => built && kernel.isBuilt) built
  built

/-! ## Decimal rendering of indices -/

/-- Value of a decimal digit character. -/
def digitValue (c : Char) : Nat := c.toNat - 48

/-- Value of a list of decimal digits, most significant first. -/
def decimalValue : List Char → Nat
  | [] => 0
  | c :: cs => digitValue c * 10 ^ cs.length + decimalValue cs

/-! ## Sample inputs -/

/-- A context with recognisable fragment texts. -/
def sampleContext : HardcodedTrainingContext :=
  { buildInputsExpressions := "in;"
    buildOutputsExpressions := "out;"
    buildRateExpression := "rate;"
    buildTargetsExpressions := "targets;"
    valueIsDouble := true }

/-- A neuron with the given feed, trace and train sizes and a tag in its texts. -/
def sampleNeuron (feed trace train : Nat) (tag : String) : HardcodedNeuron :=
  { getFeedChunk := { getSize := feed, build := "f" ++ tag ++ ";" }
    getTraceChunk := { getSize := trace, build := "t" ++ tag ++ ";" }
    getTrainChunk := { getSize := train, build := "g" ++ tag ++ ";" } }

/-! ## Persistence -/

/-- Modelled from the spec: `SerializationContext` (declared in
`SerializedObject.h`, not among the sources), the generic key-value record used
for persistence: number properties, string properties, and an ordered list of
named child records. -/
inductive SerializationContext where
  | node (numbers : List (String × Nat)) (strings : List (String × String))
      (children : List (String × SerializationContext))

namespace SerializationContext

/-- A record without properties and children. -/
def empty : SerializationContext := node [] [] []

/-- Number properties of a record. -/
def numbers : SerializationContext → List (String × Nat)
  | node n _ _ => n

/-- String properties of a record. -/
def strings : SerializationContext → List (String × String)
  | node _ s _ => s

/-- Child records of a record, in order, each with its key. -/
def children : SerializationContext → List (String × SerializationContext)
  | node _ _ c => c

/-- Modelled from the spec: `getNumberProperty(key)`; `none` when the record has no
such property. -/
def getNumberProperty (c : SerializationContext) (key : String) : Option Nat :=
  c.numbers.lookup key

/-- Modelled from the spec: `getStringProperty(key)`; `none` when the record has no
such property. -/
def getStringProperty (c : SerializationContext) (key : String) : Option String :=
  c.strings.lookup key

/-- Modelled from the spec: `setNumberProperty(value, key)`; the new value hides an
older one under the same key. -/
def setNumberProperty (c : SerializationContext) (value : Nat) (key : String) :
    SerializationContext :=
  node ((key, value) :: c.numbers) c.strings c.children

/-- Modelled from the spec: `setStringProperty(value, key)`; the new value hides an
older one under the same key. -/
def setStringProperty (c : SerializationContext) (value : String) (key : String) :
    SerializationContext :=
  node c.numbers ((key, value) :: c.strings) c.children

/-- Modelled from the spec: `getChildContext(key)`, the first child under the key;
`none` when there is none. -/
def getChildContext (c : SerializationContext) (key : String) :
    Option SerializationContext :=
  c.children.lookup key

/-- Modelled from the spec: `createChildContext(key)` followed by the writes made
through the returned child: the finished child is appended after the children
already there. -/
def createChildContext (c : SerializationContext) (key : String)
    (child : SerializationContext) : SerializationContext :=
  node c.numbers c.strings (c.children ++ [(key, child)])

end SerializationContext

/-- Modelled from the spec: the key `Keys::Hardcoded::FeedKernels`. -/
def Keys.Hardcoded.FeedKernels : String := "FeedKernels"

/-- Modelled from the spec: the key `Keys::Hardcoded::TrainKernels`. -/
def Keys.Hardcoded.TrainKernels : String := "TrainKernels"

/-- Modelled from the spec: the key `Keys::Hardcoded::FeedKernel` of a child of the
feed list. -/
def Keys.Hardcoded.FeedKernel : String := "FeedKernel"

/-- Modelled from the spec: the key `Keys::Hardcoded::TrainKernel` of a child of the
train list. -/
def Keys.Hardcoded.TrainKernel : String := "TrainKernel"

/-- Modelled from the spec: the key `Keys::Hardcoded::NumExpressions`. -/
def Keys.Hardcoded.NumExpressions : String := "NumExpressions"

/-- Modelled from the spec: the key `Keys::Hardcoded::EntryPoint`. -/
def Keys.Hardcoded.EntryPoint : String := "EntryPoint"

/-- Modelled from the spec: the key `Keys::Hardcoded::FullSource`. -/
def Keys.Hardcoded.FullSource : String := "FullSource"

/-- The method `HardcodedNetwork::Kernel::deserialize`, applied to a kernel `k`; the
number read is stored in a `size_t`.  A missing property aborts (`none`). -/
def Kernel.deserialize (k : Kernel) (context : SerializationContext) : Option Kernel :=
  match context.getNumberProperty Keys.Hardcoded.NumExpressions,
      context.getStringProperty Keys.Hardcoded.EntryPoint,
      context.getStringProperty Keys.Hardcoded.FullSource with
  | some n, some e, some s =>
    some { k with numExpressions := n % wordSize, entryPoint := e, fullSource := s }
  | _, _, _ => none

/-- The method `HardcodedNetwork::Kernel::serialize`. -/
def Kernel.serialize (k : Kernel) (context : SerializationContext) : SerializationContext :=
  ((context.setNumberProperty k.numExpressions Keys.Hardcoded.NumExpressions
    ).setStringProperty k.entryPoint Keys.Hardcoded.EntryPoint
    ).setStringProperty k.fullSource Keys.Hardcoded.FullSource

/-- One of the two loops of `HardcodedNetwork::deserialize`: every child of the
list record, in index order, is read into a fresh `Kernel` that is pushed onto
`kernels`. -/
def deserializeKernels (kernelsNode : SerializationContext) (kernels : List Kernel) :
    Option (List Kernel) :=
  kernelsNode.children.foldlM
    (fun kernels kernelNode =>
      match Kernel.new.deserialize kernelNode.2 with
      | some kernel => some (kernels ++ [kernel])
      | none => none)
    kernels

/-- The method `HardcodedNetwork::deserialize`; `none` when a record expected by the
reads is missing. -/
def HardcodedNetwork.deserialize (net : HardcodedNetwork) (context : SerializationContext) :
    Option HardcodedNetwork :=
  let net : HardcodedNetwork := { net with feedKernels := [], trainKernels := [] }
  match context.getChildContext Keys.Hardcoded.FeedKernels with
  | none => none
  | some feedKernelsNode =>
    match deserializeKernels feedKernelsNode net.feedKernels with
    | none => none
    | some feedKernels =>
      match context.getChildContext Keys.Hardcoded.TrainKernels with
      | none => none
      | some trainKernelsNode =>
        match deserializeKernels trainKernelsNode net.trainKernels with
        | none => none
        | some trainKernels =>
          some { net with feedKernels := feedKernels, trainKernels := trainKernels }

/-- The method `HardcodedNetwork::serialize`. -/
def HardcodedNetwork.serialize (net : HardcodedNetwork) (context : SerializationContext) :
    SerializationContext :=
  let feedKernelsNode := net.feedKernels.foldl
    (fun node kernel =>
      node.createChildContext Keys.Hardcoded.FeedKernel
        (kernel.serialize SerializationContext.empty))
    SerializationContext.empty
  let context := context.createChildContext Keys.Hardcoded.FeedKernels feedKernelsNode
  let trainKernelsNode := net.trainKernels.foldl
    (fun node kernel =>
      node.createChildContext Keys.Hardcoded.TrainKernel
        (kernel.serialize SerializationContext.empty))
    SerializationContext.empty
  context.createChildContext Keys.Hardcoded.TrainKernels trainKernelsNode

/-- The kernel data a record carries under a list key: for every child of that list,
in order, its `NumExpressions`, `EntryPoint` and `FullSource` properties. -/
def SerializationContext.kernelRecords (c : SerializationContext) (key : String) :
    Option (List (Option Nat × Option String × Option String)) :=
  (c.getChildContext key).map fun node =>
    node.children.map fun child =>
      (child.2.getNumberProperty Keys.Hardcoded.NumExpressions,
        child.2.getStringProperty Keys.Hardcoded.EntryPoint,
        child.2.getStringProperty Keys.Hardcoded.FullSource)

/-- A kernel record with all three properties present. -/
def presentRecord (r : Nat × String × String) : Option Nat × Option String × Option String :=
  (some r.1, some r.2.1, some r.2.2)

/-- The kernel that deserialization makes of a record: not built, with the record's
count, entry point and source. -/
def kernelOfRecord (r : Nat × String × String) : Kernel :=
  { isBuilt := false, numExpressions := r.1, entryPoint := r.2.1, fullSource := r.2.2 }

/-- A kernel record with the given count, entry point and source. -/
def sampleKernelRecord (n : Nat) (entryPoint fullSource : String) : SerializationContext :=
  SerializationContext.node [("NumExpressions", n)]
    [("EntryPoint", entryPoint), ("FullSource", fullSource)] []

/-- A persisted network with two feed kernels and one train kernel. -/
def sampleRecord : SerializationContext :=
  SerializationContext.node [] []
    [("FeedKernels", SerializationContext.node [] []
        [("FeedKernel", sampleKernelRecord 3 "feed_0" "a"),
          ("FeedKernel", sampleKernelRecord 4 "feed_1" "b")]),
      ("TrainKernels", SerializationContext.node [] []
        [("TrainKernel", sampleKernelRecord 5 "train_0" "c")])]

/-! ## Construction -/

/-- Modelled from the spec: what the OpenCL calls of the accelerated build observe
and do (`cl.hpp` is not among the sources): whether a platform and a device are
found, and the effect of one dispatched kernel, once `finish()` has returned, on
the host-bound buffers it is given. -/
structure OpenCL where
  /-- Whether `allPlatforms.size() != 0`. -/
  platformFound : Bool
  /-- Whether `allDevices` is non-empty. -/
  deviceFound : Bool
  /-- Effect of a feed kernel with arguments `(inputs, outputs, memory)`: the new
  outputs and memory. -/
  runFeed : Kernel → RawData → RawData → RawData → RawData × RawData
  /-- Effect of a train kernel with arguments `(rate, targets, memory)`: the new
  memory. -/
  runTrain : Kernel → Value → RawData → RawData → RawData

/-- The build: without `TINYRNN_OPENCL_ACCELERATION`, or with it. -/
inductive Acceleration where
  | disabled
  | enabled (cl : OpenCL)

/-- The method `HardcodedNetwork::initialize`, with its result. -/
def HardcodedNetwork.initialize (acceleration : Acceleration) (net : HardcodedNetwork)
    (targetLayers : HardcodedLayers) (maxNumberOfExpressionsPerKernel : Nat) :
    HardcodedNetwork × Bool :=
  let assemble : HardcodedNetwork × Bool :=
    let net := { net with
      feedKernels :=
        compileFeedKernels net.trainingContext targetLayers maxNumberOfExpressionsPerKernel }
    let net := { net with
      trainKernels :=
        compileTrainKernels net.trainingContext targetLayers maxNumberOfExpressionsPerKernel }
    (net, true)
  match acceleration with
  | Acceleration.disabled => assemble
  | Acceleration.enabled cl =>
    if !cl.platformFound then (net, false)
    else if !cl.deviceFound then (net, false)
    else assemble

/-- The constructor `HardcodedNetwork(targetContext)`. -/
def HardcodedNetwork.new (acceleration : Acceleration)
    (targetContext : HardcodedTrainingContext) : HardcodedNetwork :=
  ( HardcodedNetwork.initialize acceleration
    { trainingContext := targetContext, feedKernels := [], trainKernels := [] } [] 0).1

/-- The constructor `HardcodedNetwork(targetContext, targetLayers,
maxNumberOfExpressionsPerKernel)`. -/
def HardcodedNetwork.newFromLayers (acceleration : Acceleration)
    (targetContext : HardcodedTrainingContext) (targetLayers : HardcodedLayers)
    (maxNumberOfExpressionsPerKernel : Nat) : HardcodedNetwork :=
  ( HardcodedNetwork.initialize acceleration
    { trainingContext := targetContext, feedKernels := [], trainKernels := [] }
    targetLayers maxNumberOfExpressionsPerKernel).1

/-! ## `asStandalone` -/

/-- Modelled from the spec: what `asStandalone` takes from outside the class: the
identifier returned by `Uuid::generateIsoUuid()` at this call (`Id.h` is not among
the sources) and the text that stream insertion prints for a `Value`. -/
structure Platform where
  generateIsoUuid : String
  printValue : Value → String

/-- The type `StandaloneSources = std::map<std::string, std::string>` as a list of
entries with distinct keys; the order of the entries carries no meaning. -/
abbrev StandaloneSources := List (String × String)

/-- The assignment `result[key] = value` on a `std::map`. -/
def assignEntry (result : StandaloneSources) (key value : String) : StandaloneSources :=
  if result.any (fun entry => entry.1 == key) then
    result.map (fun entry => if entry.1 == key then (key, value) else entry)
  else
    result ++ [(key, value)]

/-- A read of `front()` on an empty vector. -/
inductive StandaloneFault where
  | feedKernelsFrontOfEmpty
  | trainKernelsFrontOfEmpty
deriving DecidableEq, Repr

/-- The `header` stream of `asStandalone`. -/
def standaloneHeader (platform : Platform) (ctx : HardcodedTrainingContext) (name : String)
    (asConst : Bool) : String :=
  let feedEntry := name ++ "Feed"
  let trainEntry := name ++ "Train"
  let networkGuard := "TINYRNN_STANDALONE_GUARD_" ++ platform.generateIsoUuid
  let header := ""
  let header := header ++ "#ifndef " ++ networkGuard ++ "\n"
  let header := header ++ "#define " ++ networkGuard ++ "\n"
  let header := header ++ "\n"
  let header := header ++ ("extern " ++ valueString ctx ++ " kMemory[];") ++ "\n"
  let header := header ++ "const int kMemorySize = " ++ toString ctx.getMemory.length
    ++ ";" ++ "\n"
  let header := header ++ "\n"
  let header := header ++ ("extern " ++ valueString ctx ++ " kOutputs[];") ++ "\n"
  let header := header ++ "const int kOutputsSize = " ++ toString ctx.getOutputs.length
    ++ ";" ++ "\n"
  let header := header ++ "\n"
  let header := header ++ "void " ++ feedEntry ++ "(const " ++ valueString ctx
    ++ " *input);" ++ "\n"
  let header :=
    if !asConst then
      header ++ "void " ++ trainEntry ++ "(const " ++ valueString ctx ++ " rate, const "
        ++ valueString ctx ++ " *target);" ++ "\n"
    else header
  let header := header ++ "\n"
  header ++ "#endif //" ++ networkGuard ++ "\n"

/-- One of the two value loops of `asStandalone`: every value followed by `", "`,
and a line break after each index `i` with `i % 8 == 7`. -/
def appendValues (platform : Platform) (values : RawData) (source : String) : String :=
  let linebreakEveryNth := 8
  (List.range values.length).foldl
    (fun source i =>
      let source := source ++ platform.printValue (values.getD i Value.zero) ++ ", "
      if i % linebreakEveryNth = linebreakEveryNth - 1 then source ++ "\n" else source)
    source

/-- The tail of the `source` stream of `asStandalone`: the two array definitions. -/
def appendArrays (platform : Platform) (ctx : HardcodedTrainingContext) (source : String) :
    String :=
  let source := source ++ (valueString ctx ++ " kMemory[] = ") ++ "\n"
  let source := source ++ "\x7b " ++ "\n"
  let source := appendValues platform ctx.getMemory source
  let source := source ++ "0 \x7d; " ++ "\n" ++ "\n"
  let source := source ++ (valueString ctx ++ " kOutputs[] = ") ++ "\n"
  let source := source ++ "\x7b " ++ "\n"
  let source := appendValues platform ctx.getOutputs source
  source ++ "0 \x7d; " ++ "\n"

/-- The head of the `source` stream of `asStandalone`, up to the array definitions,
given the kernels that the reads of `feedKernels.front()` and, unless `asConst`, of
`trainKernels.front()` yield; when `asConst` holds `trainFront` is not read. -/
def standaloneFunctions (ctx : HardcodedTrainingContext) (name : String)
    (asConst : Bool) (feedFront trainFront : Kernel) : String :=
  let headerName := name ++ ".h"
  let feedEntry := name ++ "Feed"
  let trainEntry := name ++ "Train"
  let source := ""
  let source := source ++ "#include \"" ++ headerName ++ "\"" ++ "\n"
  let source := source ++ "#define kernel" ++ "\n"
  let source := source ++ "#define global" ++ "\n"
  let source := source ++ "\n"
  let source := source ++ "static " ++ feedFront.fullSource
  let source := source ++ "\n"
  let source :=
    if !asConst then
      let source := source ++ "static " ++ trainFront.fullSource
      source ++ "\n"
    else source
  let source := source ++ "void " ++ feedEntry ++ "(const " ++ valueString ctx
    ++ " *input) \x7b" ++ "\n"
  let source := source ++ "    " ++ feedFront.entryPoint ++ "(input, kOutputs, kMemory);"
    ++ "\n"
  let source := source ++ "\x7d" ++ "\n"
  let source := source ++ "\n"
  let source :=
    if !asConst then
      let source := source ++ "void " ++ trainEntry ++ "(const " ++ valueString ctx
        ++ " rate, const " ++ valueString ctx ++ " *target) \x7b" ++ "\n"
      let source := source ++ "    " ++ trainFront.entryPoint ++ "(&rate, target, kMemory);"
        ++ "\n"
      let source := source ++ "\x7d" ++ "\n"
      source ++ "\n"
    else source
  source

/-- The whole `source` stream of `asStandalone`. -/
def standaloneSource (platform : Platform) (ctx : HardcodedTrainingContext) (name : String)
    (asConst : Bool) (feedFront trainFront : Kernel) : String :=
  appendArrays platform ctx (standaloneFunctions ctx name asConst feedFront trainFront)

set_option linter.unusedVariables false in
/-- The method `HardcodedNetwork::asStandalone`.  A read of `front()` on an empty
vector is reported as a fault; `trainKernels.front()` is read only when `asConst`
is false. -/
def HardcodedNetwork.asStandalone (platform : Platform) (net : HardcodedNetwork)
    (name : String) (asConst : Bool) : Except StandaloneFault StandaloneSources :=
  let result : StandaloneSources := []
  let isTrainable : Bool := !net.trainKernels.isEmpty
  if net.feedKernels.isEmpty then
    Except.ok result
  else
    let header := standaloneHeader platform net.trainingContext name asConst
    match net.feedKernels.head? with
    | none => Except.error StandaloneFault.feedKernelsFrontOfEmpty
    | some feedFront =>
      match (if !asConst then net.trainKernels.head? else some Kernel.new) with
      | none => Except.error StandaloneFault.trainKernelsFrontOfEmpty
      | some trainFront =>
        let source :=
          standaloneSource platform net.trainingContext name asConst feedFront trainFront
        let result := assignEntry result (name ++ ".h") header
        let result := assignEntry result (name ++ ".c") source
        Except.ok result

/-- The entries of an array initializer as the specification words them: every
value in index order followed by `", "`, with a line break after the entry at
index `i` exactly when `i mod 8 = 7`. -/
def initializerEntries (platform : Platform) (values : RawData) : List String :=
  values.enum.map fun iv =>
    platform.printValue iv.2 ++ ", " ++ (if iv.1 % 8 = 7 then "\n" else "")

/-- An array definition of the implementation text: the declaration line, the
opening brace, the entries, and the sentinel `0` with the closing brace. -/
def arrayDefinition (platform : Platform) (ctx : HardcodedTrainingContext)
    (arrayName : String) (values : RawData) : String :=
  valueString ctx ++ " " ++ arrayName ++ "[] = \n\x7b \n"
    ++ String.join (initializerEntries platform values) ++ "0 \x7d; \n"

/-- Whether `initialize` gets past its OpenCL preamble to the assembly of the
kernels: always without acceleration; with it, when a platform and a device are
found. -/
def Acceleration.reachesAssembly : Acceleration → Bool
  | Acceleration.disabled => true
  | Acceleration.enabled cl => cl.platformFound && cl.deviceFound

/-- An accelerated build on a machine without any OpenCL platform. -/
def sampleNoPlatform : Acceleration :=
  Acceleration.enabled
    { platformFound := false
      deviceFound := false
      runFeed := fun _ _ outputs memory => (outputs, memory)
      runTrain := fun _ _ _ memory => memory }

/-- An accelerated build with a device whose kernels leave the buffers as they are. -/
def sampleDevice : Acceleration :=
  Acceleration.enabled
    { platformFound := true
      deviceFound := true
      runFeed := fun _ _ outputs memory => (outputs, memory)
      runTrain := fun _ _ _ memory => memory }

/-- A platform that prints a value as the decimal of its bit pattern. -/
def samplePlatform : Platform :=
  { generateIsoUuid := "0000", printValue := fun v => toString v.bits }

/-- A persisted network with one feed kernel and no train kernel. -/
def sampleUntrainableRecord : SerializationContext :=
  SerializationContext.node [] []
    [("FeedKernels", SerializationContext.node [] []
        [("FeedKernel", sampleKernelRecord 3 "feed_0" "a")]),
      ("TrainKernels", SerializationContext.node [] [] [])]

/-- A network with one feed kernel, no train kernel, a memory buffer of nine values
and an outputs buffer of one value. -/
def sampleStandaloneNetwork : HardcodedNetwork :=
  { trainingContext :=
      { sampleContext with
        getMemory := [⟨1⟩, ⟨2⟩, ⟨3⟩, ⟨4⟩, ⟨5⟩, ⟨6⟩, ⟨7⟩, ⟨8⟩, ⟨9⟩]
        getOutputs := [⟨0⟩] }
    feedKernels := [feedKernelOf sampleContext 0 []]
    trainKernels := [] }

/-! ## `feed` and `train` -/

/-- A call on the command queue `clQueue`. -/
inductive QueueCall where
  | enqueueNDRangeKernel (kernel : Kernel)
  | finish
deriving DecidableEq, Repr

/-- The method `HardcodedNetwork::feed`: the returned values, the network with its
buffers after the call, and the calls made on the command queue, in order.  The
effect of a kernel on the host-bound buffers is taken when `finish()` returns. -/
def HardcodedNetwork.feed (acceleration : Acceleration) (net : HardcodedNetwork)
    (inputs : RawData) : RawData × HardcodedNetwork × List QueueCall :=
  match acceleration with
  | Acceleration.disabled => ([], net, [])
  | Acceleration.enabled cl =>
    let ctx := net.trainingContext
    let ctx := { ctx with getOutputs := ctx.getOutputs.map fun _ => Value.zero }
    let state := net.feedKernels.foldl
      (fun (state : HardcodedTrainingContext × List QueueCall) kernel =>
        let calls := state.2 ++ [QueueCall.enqueueNDRangeKernel kernel]
        let buffers := cl.runFeed kernel inputs state.1.getOutputs state.1.getMemory
        let calls := calls ++ [QueueCall.finish]
        ({ state.1 with getOutputs := buffers.1, getMemory := buffers.2 }, calls))
      (ctx, [])
    (state.1.getOutputs, { net with trainingContext := state.1 }, state.2)

/-- The method `HardcodedNetwork::train`: the network with its buffers after the
call, and the calls made on the command queue, in order. -/
def HardcodedNetwork.train (acceleration : Acceleration) (net : HardcodedNetwork)
    (rate : Value) (targets : RawData) : HardcodedNetwork × List QueueCall :=
  match acceleration with
  | Acceleration.disabled => (net, [])
  | Acceleration.enabled cl =>
    let state := net.trainKernels.foldl
      (fun (state : HardcodedTrainingContext × List QueueCall) kernel =>
        let calls := state.2 ++ [QueueCall.enqueueNDRangeKernel kernel]
        let memory := cl.runTrain kernel rate targets state.1.getMemory
        let calls := calls ++ [QueueCall.finish]
        ({ state.1 with getMemory := memory }, calls))
      (net.trainingContext, [])
    ({ net with trainingContext := state.1 }, state.2)

/-- The queue calls that dispatch the given kernels one at a time: for each kernel
in list order, its enqueue and then a blocking `finish`. -/
def sequentialDispatch (kernels : List Kernel) : List QueueCall :=
  (kernels.map fun kernel => [QueueCall.enqueueNDRangeKernel kernel, QueueCall.finish]).flatten

/-- A network that was never compiled: one unbuilt feed kernel, one unbuilt train
kernel, and an outputs buffer of one value. -/
def sampleUnbuiltNetwork : HardcodedNetwork :=
  { trainingContext := { sampleContext with getMemory := [⟨1⟩, ⟨2⟩], getOutputs := [⟨3⟩] }
    feedKernels := [feedKernelOf sampleContext 0 []]
    trainKernels := [trainKernelOf sampleContext 0 []] }

/-! ## The loops in terms of the shared shape -/

theorem feedNeuronStep_eq (ctx : HardcodedTrainingContext) (m : Nat) :
    feedNeuronStep ctx m = (feedShape ctx m).step := by
  funext st n; rfl

theorem trainNeuronStep_eq (ctx : HardcodedTrainingContext) (m : Nat) :
    trainNeuronStep ctx m = (trainShape ctx m).step := by
  funext st n; rfl

theorem compileFeedKernels_eq_run (ctx : HardcodedTrainingContext) (layers : HardcodedLayers)
    (b : Nat) :
    compileFeedKernels ctx layers b
      = (feedShape ctx (trnn_max b 100)).run (forwardOrder layers) := by
  unfold compileFeedKernels PassShape.run PassShape.finish forwardOrder
  simp only [feedNeuronStep_eq, List.foldl_flatten]
  rfl

theorem compileTrainKernels_eq_run (ctx : HardcodedTrainingContext) (layers : HardcodedLayers)
    (b : Nat) :
    compileTrainKernels ctx layers b
      = (trainShape ctx (trnn_max b 100)).run (forwardOrder layers).reverse := by
  have h : ∀ (f : CompileState → HardcodedNeuron → CompileState) (s : CompileState),
      layers.reverse.foldl (fun st layer => layer.reverse.foldl f st) s
        = layers.flatten.reverse.foldl f s := by
    intro f s
    rw [List.reverse_flatten, List.foldl_flatten, ← List.map_reverse, List.foldl_map]
  unfold compileTrainKernels PassShape.run PassShape.finish forwardOrder
  simp only [trainNeuronStep_eq, h]
  rfl

/-! ## The shared loop computes the kernels of its groups -/

namespace PassShape

theorem wsum_snoc (p : Packing) (cur : List HardcodedNeuron) (n : HardcodedNeuron) :
    p.wsum (cur ++ [n]) = (p.wsum cur + p.size n) % wordSize := by
  simp [Packing.wsum, List.foldl_append]

theorem wsum_single (p : Packing) (n : HardcodedNeuron) :
    p.wsum [n] = (0 + p.size n) % wordSize := by
  simp [Packing.wsum]

theorem openSource_snoc (p : PassShape) (e : String) (cur : List HardcodedNeuron)
    (n : HardcodedNeuron) :
    p.openSource e (cur ++ [n]) = p.openSource e cur ++ p.chunk n := by
  simp [openSource, List.foldl_append]

theorem step_open (p : PassShape) (r : List Kernel) (cur : List HardcodedNeuron)
    (n : HardcodedNeuron) :
    p.step ⟨r, some (p.openKernel r.length cur), p.wsum cur⟩ n
      = if p.startNew ((p.wsum cur + p.size n) % wordSize) then
          ⟨r ++ [p.kernelOf r.length cur], some (p.openKernel (r.length + 1) [n]), p.wsum [n]⟩
        else
          ⟨r, some (p.openKernel r.length (cur ++ [n])), p.wsum (cur ++ [n])⟩ := by
  by_cases h : p.startNew ((p.wsum cur + p.size n) % wordSize) = true
  · rw [if_pos h]
    simp only [step, h, Option.isNone_some, Bool.false_or, if_true]
    simp [openKernel, kernelOf, openSource, Kernel.new, wsum_single]
  · rw [if_neg h]
    simp only [step, h, Option.isNone_some, Bool.false_or, wsum_snoc, openKernel,
      openSource_snoc]
    simp

theorem step_init (p : PassShape) (n : HardcodedNeuron) :
    p.step CompileState.init n = ⟨[], some (p.openKernel 0 [n]), p.wsum [n]⟩ := by
  simp [step, CompileState.init, openKernel, openSource, Packing.wsum, Kernel.new]

theorem finish_foldl_open (p : PassShape) (ns : List HardcodedNeuron) :
    ∀ (r : List Kernel) (cur : List HardcodedNeuron),
      p.finish (ns.foldl p.step ⟨r, some (p.openKernel r.length cur), p.wsum cur⟩)
        = r ++ p.kernelsFrom r.length (p.groupsFrom cur ns) := by
  induction ns with
  | nil =>
    intro r cur
    simp [finish, Packing.groupsFrom, kernelsFrom, openKernel, kernelOf]
  | cons n ns ih =>
    intro r cur
    rw [List.foldl_cons, step_open]
    by_cases h : p.startNew ((p.wsum cur + p.size n) % wordSize) = true
    · have := ih (r ++ [p.kernelOf r.length cur]) [n]
      simp only [List.length_append, List.length_singleton] at this
      simp [h, Packing.groupsFrom, kernelsFrom, this]
    · simp [h, Packing.groupsFrom, ih]

/-- The shared loop produces, in order, the closed kernels of its groups. -/
theorem run_eq_kernelsFrom (p : PassShape) (ns : List HardcodedNeuron) :
    p.run ns = p.kernelsFrom 0 (p.groups ns) := by
  cases ns with
  | nil => simp [run, finish, CompileState.init, Packing.groups, kernelsFrom]
  | cons n ns =>
    rw [run, List.foldl_cons, step_init]
    have := p.finish_foldl_open ns [] [n]
    simpa [Packing.groups] using this

theorem kernelsFrom_eq_enumFrom (p : PassShape) (gs : List (List HardcodedNeuron)) :
    ∀ i, p.kernelsFrom i gs = (gs.enumFrom i).map (fun ig => p.kernelOf ig.1 ig.2) := by
  induction gs with
  | nil => intro i; rfl
  | cons g gs ih => intro i; simp [kernelsFrom, ih]

theorem openSource_eq (p : PassShape) (e : String) (g : List HardcodedNeuron) :
    p.openSource e g = p.opening e ++ String.join (g.map p.chunk) := by
  unfold openSource
  generalize p.opening e = s0
  induction g generalizing s0 with
  | nil => apply String.ext; simp
  | cons n g ih =>
    rw [List.foldl_cons, ih]
    apply String.ext
    simp

end PassShape

namespace Packing

theorem foldl_mod_eq (sz : HardcodedNeuron → Nat) (g : List HardcodedNeuron) :
    ∀ a : Nat, g.foldl (fun c n => (c + sz n % wordSize) % wordSize) (a % wordSize)
      = (a + (g.map sz).sum) % wordSize := by
  induction g with
  | nil => intro a; simp
  | cons n g ih =>
    intro a
    rw [List.foldl_cons, ← Nat.add_mod, ih]
    simp [Nat.add_assoc]

end Packing

theorem feedPacking_wsum (m : Nat) (g : List HardcodedNeuron) :
    (feedPacking m).wsum g = (g.map feedSize).sum % wordSize := by
  have := Packing.foldl_mod_eq feedSize g 0
  simpa [Packing.wsum, feedPacking] using this

theorem trainPacking_wsum (m : Nat) (g : List HardcodedNeuron) :
    (trainPacking m).wsum g = (g.map trainSize).sum % wordSize := by
  have := Packing.foldl_mod_eq trainSize g 0
  simpa [Packing.wsum, trainPacking] using this

theorem feedShape_kernelOf (ctx : HardcodedTrainingContext) (m i : Nat)
    (g : List HardcodedNeuron) :
    (feedShape ctx m).kernelOf i g = feedKernelOf ctx i g := by
  have hw : (feedShape ctx m).wsum g = (g.map feedSize).sum % wordSize :=
    feedPacking_wsum m g
  simp only [PassShape.kernelOf, hw, PassShape.openSource_eq, feedKernelOf]
  simp [feedShape, feedClose, feedOpening, feedBody, String.append_assoc]

theorem trainShape_kernelOf (ctx : HardcodedTrainingContext) (m i : Nat)
    (g : List HardcodedNeuron) :
    (trainShape ctx m).kernelOf i g = trainKernelOf ctx i g := by
  have hw : (trainShape ctx m).wsum g = (g.map trainSize).sum % wordSize :=
    trainPacking_wsum m g
  simp only [PassShape.kernelOf, hw, PassShape.openSource_eq, trainKernelOf]
  simp [trainShape, trainClose, trainOpening, trainBody, String.append_assoc]

/-- The feed kernels are, in order, the kernels of the groups of `feedKernelNeurons`. -/
theorem compileFeedKernels_eq (ctx : HardcodedTrainingContext) (layers : HardcodedLayers)
    (b : Nat) :
    compileFeedKernels ctx layers b
      = (feedKernelNeurons layers b).enum.map (fun ig => feedKernelOf ctx ig.1 ig.2) := by
  rw [compileFeedKernels_eq_run, PassShape.run_eq_kernelsFrom,
    PassShape.kernelsFrom_eq_enumFrom]
  simp only [feedShape_kernelOf]
  rfl

/-- The train kernels are, in order, the kernels of the groups of `trainKernelNeurons`. -/
theorem compileTrainKernels_eq (ctx : HardcodedTrainingContext) (layers : HardcodedLayers)
    (b : Nat) :
    compileTrainKernels ctx layers b
      = (trainKernelNeurons layers b).enum.map (fun ig => trainKernelOf ctx ig.1 ig.2) := by
  rw [compileTrainKernels_eq_run, PassShape.run_eq_kernelsFrom,
    PassShape.kernelsFrom_eq_enumFrom]
  simp only [trainShape_kernelOf]
  rfl

/-! ## Partition facts -/

namespace Packing

theorem flatten_groupsFrom (p : Packing) (ns : List HardcodedNeuron) :
    ∀ cur, (p.groupsFrom cur ns).flatten = cur ++ ns := by
  induction ns with
  | nil => intro cur; simp [groupsFrom]
  | cons n ns ih =>
    intro cur
    unfold groupsFrom
    split
    · simp [ih]
    · simp [ih]

/-- The groups, concatenated in order, are the neuron sequence itself. -/
theorem flatten_groups (p : Packing) (ns : List HardcodedNeuron) :
    (p.groups ns).flatten = ns := by
  cases ns with
  | nil => rfl
  | cons n ns => simp [groups, flatten_groupsFrom]

theorem groupsFrom_ne_nil (p : Packing) (ns : List HardcodedNeuron) :
    ∀ cur, cur ≠ [] → ∀ g ∈ p.groupsFrom cur ns, g ≠ [] := by
  induction ns with
  | nil => intro cur hc g hg; simp [groupsFrom] at hg; simpa [hg] using hc
  | cons n ns ih =>
    intro cur hc g hg
    unfold groupsFrom at hg
    split at hg
    · rcases List.mem_cons.1 hg with h | h
      · simpa [h] using hc
      · exact ih [n] (by simp) g h
    · exact ih (cur ++ [n]) (by simp) g hg

/-- No group is empty. -/
theorem groups_ne_nil (p : Packing) (ns : List HardcodedNeuron) :
    ∀ g ∈ p.groups ns, g ≠ [] := by
  cases ns with
  | nil => intro g hg; simp [groups] at hg
  | cons n ns => exact p.groupsFrom_ne_nil ns [n] (by simp)

theorem groupsFrom_length_pos (p : Packing) (ns : List HardcodedNeuron) :
    ∀ cur, 0 < (p.groupsFrom cur ns).length := by
  induction ns with
  | nil => intro cur; simp [groupsFrom]
  | cons n ns ih =>
    intro cur
    unfold groupsFrom
    split
    · simp
    · exact ih _

theorem groups_eq_nil_iff (p : Packing) (ns : List HardcodedNeuron) :
    p.groups ns = [] ↔ ns = [] := by
  cases ns with
  | nil => simp [groups]
  | cons n ns =>
    have := p.groupsFrom_length_pos ns [n]
    constructor
    · intro h
      rw [groups] at h
      rw [h] at this
      exact absurd this (by simp)
    · intro h; simp at h

theorem groupsFrom_within (p : Packing) (ns : List HardcodedNeuron) :
    ∀ cur, p.Within cur → ∀ g ∈ p.groupsFrom cur ns, p.Within g := by
  induction ns with
  | nil => intro cur hc g hg; simp [groupsFrom] at hg; simpa [hg] using hc
  | cons n ns ih =>
    intro cur hc g hg
    unfold groupsFrom at hg
    split at hg
    · rcases List.mem_cons.1 hg with h | h
      · simpa [h] using hc
      · exact ih [n] (Or.inl ⟨n, rfl⟩) g h
    · rename_i hs
      refine ih (cur ++ [n]) (Or.inr ?_) g hg
      rw [PassShape.wsum_snoc]
      simpa using hs

/-- Every group respects the threshold. -/
theorem groups_within (p : Packing) (ns : List HardcodedNeuron) :
    ∀ g ∈ p.groups ns, p.Within g := by
  cases ns with
  | nil => intro g hg; simp [groups] at hg
  | cons n ns => exact p.groupsFrom_within ns [n] (Or.inl ⟨n, rfl⟩)

end Packing

theorem forall2_enumFrom_map {α β : Type} (f : Nat × α → β) (R : β → α → Prop)
    (l : List α) (h : ∀ i a, a ∈ l → R (f (i, a)) a) :
    ∀ i, List.Forall₂ R ((l.enumFrom i).map f) l := by
  induction l with
  | nil => intro i; exact List.Forall₂.nil
  | cons a l ih =>
    intro i
    simp only [List.enumFrom_cons, List.map_cons]
    exact List.Forall₂.cons (h i a (by simp))
      (ih (fun j b hb => h j b (List.mem_cons_of_mem _ hb)) (i + 1))

theorem trnn_max_eq (a b : Nat) : trnn_max a b = max a b := by
  unfold trnn_max
  split <;> omega

/-! ## The partition has the fewest groups

`sz` is the size of a neuron without reduction; the threshold test is monotone.
A group of an arbitrary partition is admissible when the test fails on its total
size or when it is a single neuron. -/

namespace Packing

theorem groupsFrom_cons_start (p : Packing) (cur ns : List HardcodedNeuron)
    (n : HardcodedNeuron) (h : p.startNew ((p.wsum cur + p.size n) % wordSize) = true) :
    p.groupsFrom cur (n :: ns) = cur :: p.groupsFrom [n] ns := by
  rw [groupsFrom, if_pos h]

theorem groupsFrom_cons_join (p : Packing) (cur ns : List HardcodedNeuron)
    (n : HardcodedNeuron) (h : ¬ p.startNew ((p.wsum cur + p.size n) % wordSize) = true) :
    p.groupsFrom cur (n :: ns) = p.groupsFrom (cur ++ [n]) ns := by
  rw [groupsFrom, if_neg h]

theorem foldl_le_sum (p : Packing) (sz : HardcodedNeuron → Nat)
    (hsz : ∀ n, p.size n ≤ sz n) (g : List HardcodedNeuron) :
    ∀ a, g.foldl (fun c n => (c + p.size n) % wordSize) a ≤ a + (g.map sz).sum := by
  induction g with
  | nil => intro a; simp
  | cons n g ih =>
    intro a
    rw [List.foldl_cons]
    refine le_trans (ih _) ?_
    have h1 : (a + p.size n) % wordSize ≤ a + p.size n := Nat.mod_le _ _
    have h2 := hsz n
    simp only [List.map_cons, List.sum_cons]
    omega

theorem wsum_le_sum (p : Packing) (sz : HardcodedNeuron → Nat)
    (hsz : ∀ n, p.size n ≤ sz n) (g : List HardcodedNeuron) :
    p.wsum g ≤ (g.map sz).sum := by
  have := p.foldl_le_sum sz hsz g 0
  simpa [wsum] using this

/-- While the test fails on the total size of the open group extended by `g`, the
loop keeps the kernel open through all of `g`. -/
theorem groupsFrom_append_of_fits (p : Packing) (sz : HardcodedNeuron → Nat)
    (hsz : ∀ n, p.size n ≤ sz n)
    (hmono : ∀ v w, v ≤ w → p.startNew w = false → p.startNew v = false)
    (rest : List HardcodedNeuron) (g : List HardcodedNeuron) :
    ∀ cur, p.startNew (((cur ++ g).map sz).sum) = false →
      p.groupsFrom cur (g ++ rest) = p.groupsFrom (cur ++ g) rest := by
  induction g with
  | nil => intro cur _; simp
  | cons y g ih =>
    intro cur h
    have hle : (p.wsum cur + p.size y) % wordSize ≤ ((cur ++ y :: g).map sz).sum := by
      rw [← PassShape.wsum_snoc]
      refine le_trans (p.wsum_le_sum sz hsz _) ?_
      simp
    have hno : p.startNew ((p.wsum cur + p.size y) % wordSize) = false := hmono _ _ hle h
    have h2 : p.startNew (((cur ++ [y] ++ g).map sz).sum) = false := by simpa using h
    have := ih (cur ++ [y]) h2
    rw [List.cons_append, p.groupsFrom_cons_join cur _ y (by simp [hno]), this]
    simp

/-- Inside an admissible group the loop starts at most one new kernel. -/
theorem groupsFrom_append_le (p : Packing) (sz : HardcodedNeuron → Nat)
    (hsz : ∀ n, p.size n ≤ sz n)
    (hmono : ∀ v w, v ≤ w → p.startNew w = false → p.startNew v = false)
    (rest : List HardcodedNeuron) (g : List HardcodedNeuron)
    (hg : p.startNew ((g.map sz).sum) = false ∨ g.length = 1) :
    ∀ cur, ∃ cur2,
      (p.groupsFrom cur (g ++ rest)).length ≤ 1 + (p.groupsFrom cur2 rest).length := by
  rcases hg with hg | hg
  · induction g with
    | nil => intro cur; exact ⟨cur, by simp⟩
    | cons y g ih =>
      intro cur
      by_cases hs : p.startNew ((p.wsum cur + p.size y) % wordSize) = true
      · refine ⟨[y] ++ g, ?_⟩
        have := p.groupsFrom_append_of_fits sz hsz hmono rest g [y] (by simpa using hg)
        rw [List.cons_append, p.groupsFrom_cons_start cur _ y hs, List.length_cons, this]
        omega
      · have hg2 : p.startNew ((g.map sz).sum) = false :=
          hmono _ _ (by simp) hg
        obtain ⟨c2, hc2⟩ := ih hg2 (cur ++ [y])
        refine ⟨c2, ?_⟩
        rw [List.cons_append, p.groupsFrom_cons_join cur _ y hs]
        exact hc2
  · intro cur
    obtain ⟨y, rfl⟩ := List.length_eq_one.1 hg
    by_cases hs : p.startNew ((p.wsum cur + p.size y) % wordSize) = true
    · refine ⟨[y], ?_⟩
      rw [List.singleton_append, p.groupsFrom_cons_start cur _ y hs, List.length_cons]
      omega
    · refine ⟨cur ++ [y], ?_⟩
      rw [List.singleton_append, p.groupsFrom_cons_join cur _ y hs]
      omega

theorem groupsFrom_flatten_le (p : Packing) (sz : HardcodedNeuron → Nat)
    (hsz : ∀ n, p.size n ≤ sz n)
    (hmono : ∀ v w, v ≤ w → p.startNew w = false → p.startNew v = false)
    (gs : List (List HardcodedNeuron))
    (hgs : ∀ g ∈ gs, p.startNew ((g.map sz).sum) = false ∨ g.length = 1) :
    ∀ cur, (p.groupsFrom cur gs.flatten).length ≤ 1 + gs.length := by
  induction gs with
  | nil => intro cur; simp [groupsFrom]
  | cons g gs ih =>
    intro cur
    obtain ⟨c2, hc2⟩ := p.groupsFrom_append_le sz hsz hmono gs.flatten g
      (hgs g (by simp)) cur
    have := ih (fun g2 h2 => hgs g2 (List.mem_cons_of_mem _ h2)) c2
    simp only [List.flatten_cons, List.length_cons]
    omega

/-- No partition of the neuron sequence into admissible groups has fewer groups
than the loop produces kernels. -/
theorem groups_length_le (p : Packing) (sz : HardcodedNeuron → Nat)
    (hsz : ∀ n, p.size n ≤ sz n)
    (hmono : ∀ v w, v ≤ w → p.startNew w = false → p.startNew v = false)
    (gs : List (List HardcodedNeuron))
    (hgs : ∀ g ∈ gs, p.startNew ((g.map sz).sum) = false ∨ g.length = 1) :
    (p.groups gs.flatten).length ≤ gs.length := by
  induction gs with
  | nil => simp [groups]
  | cons g gs ih =>
    have hrest := fun g2 h2 => hgs g2 (List.mem_cons_of_mem g h2)
    cases g with
    | nil =>
      have := ih hrest
      simp only [List.flatten_cons, List.nil_append, List.length_cons]
      omega
    | cons y g =>
      simp only [List.flatten_cons, List.cons_append, groups, List.length_cons]
      rcases hgs (y :: g) (by simp) with h | h
      · rw [p.groupsFrom_append_of_fits sz hsz hmono gs.flatten g [y] (by simpa using h)]
        have := p.groupsFrom_flatten_le sz hsz hmono gs hrest ([y] ++ g)
        omega
      · have hnil : g = [] := by
          simpa using h
        subst hnil
        have := p.groupsFrom_flatten_le sz hsz hmono gs hrest [y]
        simpa [Nat.add_comm] using this

end Packing

/-! ## Decimal rendering is injective -/

theorem digitValue_digitChar (k : Nat) (h : k < 10) : digitValue (Nat.digitChar k) = k := by
  interval_cases k <;> rfl

theorem decimalValue_toDigitsCore (fuel : Nat) :
    ∀ (n : Nat) (ds : List Char), n < fuel →
      decimalValue (Nat.toDigitsCore 10 fuel n ds) = n * 10 ^ ds.length + decimalValue ds := by
  induction fuel with
  | zero => intro n ds h; omega
  | succ fuel ih =>
    intro n ds h
    have hd := digitValue_digitChar (n % 10) (Nat.mod_lt _ (by decide))
    by_cases h0 : n / 10 = 0
    · have hn : n % 10 = n := by omega
      rw [hn] at hd
      simp only [Nat.toDigitsCore, h0, if_true, decimalValue, hn, hd]
    · have hlt : n / 10 < fuel := by omega
      simp only [Nat.toDigitsCore, h0, if_false]
      rw [ih (n / 10) _ hlt]
      simp only [decimalValue, hd, List.length_cons, pow_succ]
      have hn : n = 10 * (n / 10) + n % 10 := (Nat.div_add_mod n 10).symm
      generalize n / 10 = q at hn
      generalize n % 10 = r at hn
      subst hn
      ring

theorem toString_nat_injective (a b : Nat) (h : toString a = toString b) : a = b := by
  have h1 : Nat.toDigits 10 a = Nat.toDigits 10 b := by
    have := congrArg String.data h
    simpa [toString, Nat.repr, List.asString] using this
  have ha := decimalValue_toDigitsCore (a + 1) a [] (by omega)
  have hb := decimalValue_toDigitsCore (b + 1) b [] (by omega)
  simp only [decimalValue, List.length_nil, pow_zero, mul_one, add_zero] at ha hb
  unfold Nat.toDigits at h1
  rw [← ha, ← hb, h1]

theorem append_toString_injective (s : String) (a b : Nat)
    (h : s ++ toString a = s ++ toString b) : a = b := by
  apply toString_nat_injective
  apply String.ext
  have := congrArg String.data h
  simpa using this

/-! ## Budget of a kernel -/

theorem feed_group_bound (m : Nat) (g : List HardcodedNeuron)
    (h : (feedPacking m).Within g) :
    (g.map feedSize).sum % wordSize ≤ m ∨ ∃ n, g = [n] ∧ m < feedSize n := by
  rcases h with ⟨n, rfl⟩ | h
  · by_cases hle : feedSize n % wordSize ≤ m
    · left; simpa using hle
    · right
      have := Nat.mod_le (feedSize n) wordSize
      exact ⟨n, rfl, by omega⟩
  · left
    rw [feedPacking_wsum] at h
    have : ¬ (g.map feedSize).sum % wordSize ≥ m := by simpa [feedPacking] using h
    omega

theorem train_group_bound (m : Nat) (g : List HardcodedNeuron)
    (h : (trainPacking m).Within g) :
    (g.map trainSize).sum % wordSize ≤ m ∨ ∃ n, g = [n] ∧ m < trainSize n := by
  rcases h with ⟨n, rfl⟩ | h
  · by_cases hle : trainSize n % wordSize ≤ m
    · left; simpa using hle
    · right
      have := Nat.mod_le (trainSize n) wordSize
      exact ⟨n, rfl, by omega⟩
  · left
    rw [trainPacking_wsum] at h
    have : ¬ (g.map trainSize).sum % wordSize > m := by simpa [trainPacking] using h
    omega

/-- C1: every kernel of `compileFeedKernels` and of `compileTrainKernels` has
`numExpressions ≤ max(B,100)`, except a kernel holding exactly one neuron whose own
size (`Feed.size + Trace.size` for feed, `Train.size` for train) exceeds
`max(B,100)`.  Each kernel `k` is paired with the group `g` of neurons it holds:
`k` is the kernel assembled from exactly `g`. -/
theorem kernel_expressions_within_budget (ctx : HardcodedTrainingContext)
    (layers : HardcodedLayers) (B : Nat) :
    List.Forall₂
        (fun k g => (∃ i, k = feedKernelOf ctx i g) ∧
          (k.numExpressions ≤ max B 100 ∨ ∃ n, g = [n] ∧ max B 100 < feedSize n))
        (compileFeedKernels ctx layers B) (feedKernelNeurons layers B) ∧
      List.Forall₂
        (fun k g => (∃ i, k = trainKernelOf ctx i g) ∧
          (k.numExpressions ≤ max B 100 ∨ ∃ n, g = [n] ∧ max B 100 < trainSize n))
        (compileTrainKernels ctx layers B) (trainKernelNeurons layers B) := by
  constructor
  · rw [compileFeedKernels_eq, List.enum]
    apply forall2_enumFrom_map
    intro i g hg
    refine ⟨⟨i, rfl⟩, ?_⟩
    have hw := Packing.groups_within _ _ g hg
    rw [trnn_max_eq] at hw
    exact feed_group_bound _ g hw
  · rw [compileTrainKernels_eq, List.enum]
    apply forall2_enumFrom_map
    intro i g hg
    refine ⟨⟨i, rfl⟩, ?_⟩
    have hw := Packing.groups_within _ _ g hg
    rw [trnn_max_eq] at hw
    exact train_group_bound _ g hw

/-! ## Fewest kernels -/

theorem feedKernels_length (ctx : HardcodedTrainingContext) (layers : HardcodedLayers)
    (b : Nat) :
    (compileFeedKernels ctx layers b).length = (feedKernelNeurons layers b).length := by
  simp [compileFeedKernels_eq]

theorem trainKernels_length (ctx : HardcodedTrainingContext) (layers : HardcodedLayers)
    (b : Nat) :
    (compileTrainKernels ctx layers b).length = (trainKernelNeurons layers b).length := by
  simp [compileTrainKernels_eq]

/-- C2 as stated fails: two neurons of feed size 50 each and budget 100 fit one
group of total 100 `≤ max(100,100)`, yet `compileFeedKernels` returns two kernels. -/
theorem feed_fewest_counterexample :
    ¬ (∀ gs : List (List HardcodedNeuron),
        gs.flatten
          = forwardOrder [[sampleNeuron 30 20 50 "1", sampleNeuron 30 20 50 "2"]] →
        (∀ g ∈ gs, (g.map feedSize).sum ≤ max 100 100 ∨ g.length = 1) →
        (compileFeedKernels sampleContext
          [[sampleNeuron 30 20 50 "1", sampleNeuron 30 20 50 "2"]] 100).length
          ≤ gs.length) := by
  intro h
  have h1 := h [[sampleNeuron 30 20 50 "1", sampleNeuron 30 20 50 "2"]] rfl
    (by intro g hg; left; simp at hg; subst hg; decide)
  revert h1
  decide

/-- C2, amended: no partition of the forward neuron sequence into contiguous groups,
each of total `Feed.size + Trace.size` strictly below `max(B,100)` or a single
neuron, has fewer groups than `compileFeedKernels` returns kernels. -/
theorem feed_fewest_below_threshold (ctx : HardcodedTrainingContext)
    (layers : HardcodedLayers) (B : Nat) (gs : List (List HardcodedNeuron))
    (hflat : gs.flatten = forwardOrder layers)
    (hgs : ∀ g ∈ gs, (g.map feedSize).sum < max B 100 ∨ g.length = 1) :
    (compileFeedKernels ctx layers B).length ≤ gs.length := by
  rw [feedKernels_length, feedKernelNeurons, ← hflat, trnn_max_eq]
  apply Packing.groups_length_le (feedPacking (max B 100)) feedSize
  · intro n; exact Nat.mod_le _ _
  · intro v w hvw hw
    have : ¬ w ≥ max B 100 := by simpa [feedPacking] using hw
    have hv : ¬ v ≥ max B 100 := by omega
    simpa [feedPacking] using hv
  · intro g hg
    rcases hgs g hg with h | h
    · left
      have : ¬ (g.map feedSize).sum ≥ max B 100 := by omega
      simpa [feedPacking] using this
    · exact Or.inr h

/-- Witness of `feed_fewest_below_threshold`: two neurons of feed size 50, budget
100, and the partition into two single neurons. -/
theorem feed_fewest_below_threshold_witness :
    (compileFeedKernels sampleContext
      [[sampleNeuron 30 20 50 "1", sampleNeuron 30 20 50 "2"]] 100).length ≤ 2 :=
  feed_fewest_below_threshold sampleContext
    [[sampleNeuron 30 20 50 "1", sampleNeuron 30 20 50 "2"]] 100
    [[sampleNeuron 30 20 50 "1"], [sampleNeuron 30 20 50 "2"]] rfl
    (by intro g hg; right; simp at hg; rcases hg with h | h <;> subst h <;> rfl)

/-- C3: no partition of the reversed neuron sequence into contiguous groups, each
of total `Train.size ≤ max(B,100)` or a single neuron, has fewer groups than
`compileTrainKernels` returns kernels. -/
theorem train_fewest (ctx : HardcodedTrainingContext)
    (layers : HardcodedLayers) (B : Nat) (gs : List (List HardcodedNeuron))
    (hflat : gs.flatten = (forwardOrder layers).reverse)
    (hgs : ∀ g ∈ gs, (g.map trainSize).sum ≤ max B 100 ∨ g.length = 1) :
    (compileTrainKernels ctx layers B).length ≤ gs.length := by
  rw [trainKernels_length, trainKernelNeurons, ← hflat, trnn_max_eq]
  apply Packing.groups_length_le (trainPacking (max B 100)) trainSize
  · intro n; exact Nat.mod_le _ _
  · intro v w hvw hw
    have : ¬ w > max B 100 := by simpa [trainPacking] using hw
    have hv : ¬ v > max B 100 := by omega
    simpa [trainPacking] using hv
  · intro g hg
    rcases hgs g hg with h | h
    · left
      have : ¬ (g.map trainSize).sum > max B 100 := by omega
      simpa [trainPacking] using this
    · exact Or.inr h

/-- Witness of `train_fewest`: three neurons of train sizes 50, 50 and 500 in two
layers, budget 6, against the partition `[[500], [50, 50]]` of the reversed
sequence. -/
theorem train_fewest_witness :
    (compileTrainKernels sampleContext
      [[sampleNeuron 30 20 50 "1"], [sampleNeuron 30 20 50 "2", sampleNeuron 300 20 500 "3"]]
      6).length ≤ 2 :=
  train_fewest sampleContext
    [[sampleNeuron 30 20 50 "1"], [sampleNeuron 30 20 50 "2", sampleNeuron 300 20 500 "3"]] 6
    [[sampleNeuron 300 20 500 "3"], [sampleNeuron 30 20 50 "2", sampleNeuron 30 20 50 "1"]]
    rfl
    (by
      intro g hg
      simp at hg
      rcases hg with h | h <;> subst h
      · right; rfl
      · left; decide)

/-! ## Bodies of the kernels -/

theorem join_map_join {α : Type} (f : α → String) (gs : List (List α)) :
    String.join (gs.map (fun g => String.join (g.map f))) = String.join (gs.flatten.map f) := by
  apply String.ext
  simp only [String.data_join, List.map_map, List.map_flatten, List.flatten_flatten]
  congr 1
  simp [Function.comp_def]

/-- C4: each feed kernel's source is the function header and the input-bind
prologue, then a body, then the output-bind epilogue and the closing brace; the
body of a kernel is the concatenation of `feedChunk.build() ++ traceChunk.build()`
over its group of neurons; the groups are non-empty and, concatenated in kernel
order, are the forward neuron sequence; hence the bodies concatenated in list order
are the concatenation of the chunks over all neurons in forward order. -/
theorem feed_bodies_concat (ctx : HardcodedTrainingContext) (layers : HardcodedLayers)
    (B : Nat) :
    (compileFeedKernels ctx layers B).map Kernel.fullSource
        = (feedKernelNeurons layers B).enum.map (fun ig =>
            feedHeader ctx ("feed_" ++ toString ig.1) ++ ctx.buildInputsExpressions
              ++ feedBody ig.2 ++ ctx.buildOutputsExpressions ++ "\x7d\n") ∧
      (feedKernelNeurons layers B).flatten = layers.flatten ∧
      (∀ g ∈ feedKernelNeurons layers B, g ≠ []) ∧
      String.join ((feedKernelNeurons layers B).map feedBody)
        = String.join (layers.flatten.map
            (fun n => n.getFeedChunk.build ++ n.getTraceChunk.build)) := by
  refine ⟨?_, ?_, ?_, ?_⟩
  · rw [compileFeedKernels_eq, List.map_map]
    rfl
  · exact Packing.flatten_groups _ _
  · exact Packing.groups_ne_nil _ _
  · have h := join_map_join feedChunkText (feedKernelNeurons layers B)
    rw [show (feedKernelNeurons layers B).flatten = layers.flatten from
      Packing.flatten_groups _ _] at h
    exact h

/-- C5: each train kernel's source is the function header and the rate and target
prologue, then a body, then the closing brace; the body of a kernel is the
concatenation of `trainChunk.build()` over its group of neurons; the groups are
non-empty and, concatenated in kernel order, are the reverse of the forward neuron
sequence, that is layers last to first and neurons last to first within a layer;
hence the bodies concatenated in list order are the concatenation of the train
chunks over all neurons in that reverse order. -/
theorem train_bodies_concat (ctx : HardcodedTrainingContext) (layers : HardcodedLayers)
    (B : Nat) :
    (compileTrainKernels ctx layers B).map Kernel.fullSource
        = (trainKernelNeurons layers B).enum.map (fun ig =>
            trainHeader ctx ("train_" ++ toString ig.1) ++ ctx.buildRateExpression
              ++ ctx.buildTargetsExpressions ++ trainBody ig.2 ++ "\x7d\n") ∧
      (trainKernelNeurons layers B).flatten = layers.flatten.reverse ∧
      layers.flatten.reverse = (layers.reverse.map List.reverse).flatten ∧
      (∀ g ∈ trainKernelNeurons layers B, g ≠ []) ∧
      String.join ((trainKernelNeurons layers B).map trainBody)
        = String.join (layers.flatten.reverse.map (fun n => n.getTrainChunk.build)) := by
  refine ⟨?_, ?_, ?_, ?_, ?_⟩
  · rw [compileTrainKernels_eq, List.map_map]
    rfl
  · exact Packing.flatten_groups _ _
  · rw [List.reverse_flatten, List.map_reverse]
  · exact Packing.groups_ne_nil _ _
  · have h := join_map_join trainChunkText (trainKernelNeurons layers B)
    rw [show (trainKernelNeurons layers B).flatten = layers.flatten.reverse from
      Packing.flatten_groups _ _] at h
    exact h

/-! ## Entry points -/

theorem enum_map_fst_fun {α β : Type} (f : Nat → β) (l : List α) :
    l.enum.map (fun ig => f ig.1) = (List.range l.length).map f := by
  have h : l.enum.map (fun ig => f ig.1) = (l.enum.map Prod.fst).map f := by
    rw [List.map_map]; rfl
  rw [h, List.enum_map_fst]

theorem nodup_map_append_toString (s : String) (k : Nat) :
    ((List.range k).map (fun i => s ++ toString i)).Nodup := by
  apply List.Nodup.map
  · intro a b h
    exact append_toString_injective s a b h
  · exact List.nodup_range k

/-- C6: the `i`-th kernel of `compileFeedKernels` has entry point `feed_i` and the
`i`-th kernel of `compileTrainKernels` has entry point `train_i` (0-based, decimal);
the entry points are pairwise distinct within each list. -/
theorem entry_points_positional (ctx : HardcodedTrainingContext) (layers : HardcodedLayers)
    (B : Nat) :
    (compileFeedKernels ctx layers B).map Kernel.entryPoint
        = (List.range (compileFeedKernels ctx layers B).length).map
            (fun i => "feed_" ++ toString i) ∧
      (compileTrainKernels ctx layers B).map Kernel.entryPoint
        = (List.range (compileTrainKernels ctx layers B).length).map
            (fun i => "train_" ++ toString i) ∧
      ((compileFeedKernels ctx layers B).map Kernel.entryPoint).Nodup ∧
      ((compileTrainKernels ctx layers B).map Kernel.entryPoint).Nodup := by
  have hf : (compileFeedKernels ctx layers B).map Kernel.entryPoint
      = (List.range (compileFeedKernels ctx layers B).length).map
          (fun i => "feed_" ++ toString i) := by
    rw [feedKernels_length, compileFeedKernels_eq, List.map_map]
    exact enum_map_fst_fun (fun i => "feed_" ++ toString i) _
  have ht : (compileTrainKernels ctx layers B).map Kernel.entryPoint
      = (List.range (compileTrainKernels ctx layers B).length).map
          (fun i => "train_" ++ toString i) := by
    rw [trainKernels_length, compileTrainKernels_eq, List.map_map]
    exact enum_map_fst_fun (fun i => "train_" ++ toString i) _
  refine ⟨hf, ht, ?_, ?_⟩
  · rw [hf]; exact nodup_map_append_toString _ _
  · rw [ht]; exact nodup_map_append_toString _ _

/-! ## The example of the specification -/

/-- C7 as stated fails: one layer of two neurons with `Feed.size = 5` and
`Trace.size = 3` each and budget 6 does not give the two kernels `feed_0` (first
neuron) and `feed_1` (second neuron); the list has one kernel. -/
theorem spec_example_feed_counterexample :
    (sampleNeuron 5 3 7 "1").getFeedChunk.getSize = 5 ∧
      (sampleNeuron 5 3 7 "1").getTraceChunk.getSize = 3 ∧
      (sampleNeuron 5 3 7 "2").getFeedChunk.getSize = 5 ∧
      (sampleNeuron 5 3 7 "2").getTraceChunk.getSize = 3 ∧
      compileFeedKernels sampleContext
          [[sampleNeuron 5 3 7 "1", sampleNeuron 5 3 7 "2"]] 6
        ≠ [feedKernelOf sampleContext 0 [sampleNeuron 5 3 7 "1"],
            feedKernelOf sampleContext 1 [sampleNeuron 5 3 7 "2"]] ∧
      (compileFeedKernels sampleContext
          [[sampleNeuron 5 3 7 "1", sampleNeuron 5 3 7 "2"]] 6).length = 1 := by
  decide

/-- C7, amended: for one layer of two neurons with `Feed.size = 5` and
`Trace.size = 3` each and budget 6, `compileFeedKernels` returns exactly one kernel,
`feed_0`, holding the first neuron and then the second (16 expressions, below the
floor `max(6,100) = 100`). -/
theorem spec_example_feed (ctx : HardcodedTrainingContext) (n1 n2 : HardcodedNeuron)
    (hf1 : n1.getFeedChunk.getSize = 5) (ht1 : n1.getTraceChunk.getSize = 3)
    (hf2 : n2.getFeedChunk.getSize = 5) (ht2 : n2.getTraceChunk.getSize = 3) :
    compileFeedKernels ctx [[n1, n2]] 6 = [feedKernelOf ctx 0 [n1, n2]] := by
  have hg : feedKernelNeurons [[n1, n2]] 6 = [[n1, n2]] := by
    simp [feedKernelNeurons, forwardOrder, Packing.groups, Packing.groupsFrom,
      Packing.wsum, feedPacking, feedSize, hf1, ht1, hf2, ht2, trnn_max, wordSize]
  rw [compileFeedKernels_eq, hg]
  rfl

/-- Witness of `spec_example_feed` on two sample neurons. -/
theorem spec_example_feed_witness :
    compileFeedKernels sampleContext [[sampleNeuron 5 3 7 "1", sampleNeuron 5 3 7 "2"]] 6
      = [feedKernelOf sampleContext 0 [sampleNeuron 5 3 7 "1", sampleNeuron 5 3 7 "2"]] :=
  spec_example_feed sampleContext (sampleNeuron 5 3 7 "1") (sampleNeuron 5 3 7 "2")
    rfl rfl rfl rfl

/-- C8 as stated fails: one layer of two neurons with `Train.size = 7 > 6` each and
budget 6 does not give the two kernels `train_0` (second neuron) and `train_1`
(first neuron); the list has one kernel. -/
theorem spec_example_train_counterexample :
    6 < (sampleNeuron 5 3 7 "1").getTrainChunk.getSize ∧
      6 < (sampleNeuron 5 3 7 "2").getTrainChunk.getSize ∧
      compileTrainKernels sampleContext
          [[sampleNeuron 5 3 7 "1", sampleNeuron 5 3 7 "2"]] 6
        ≠ [trainKernelOf sampleContext 0 [sampleNeuron 5 3 7 "2"],
            trainKernelOf sampleContext 1 [sampleNeuron 5 3 7 "1"]] ∧
      (compileTrainKernels sampleContext
          [[sampleNeuron 5 3 7 "1", sampleNeuron 5 3 7 "2"]] 6).length = 1 := by
  decide

/-- C8, amended: for one layer of two neurons and budget 6, whenever the two
`Train.size` together exceed `max(6,100) = 100` (and stay below `2 ^ 64`),
`compileTrainKernels` returns exactly two kernels, `train_0` holding only the second
neuron and `train_1` holding only the first. -/
theorem spec_example_train (ctx : HardcodedTrainingContext) (n1 n2 : HardcodedNeuron)
    (hbig : 100 < n2.getTrainChunk.getSize + n1.getTrainChunk.getSize)
    (hword : n2.getTrainChunk.getSize + n1.getTrainChunk.getSize < wordSize) :
    compileTrainKernels ctx [[n1, n2]] 6
      = [trainKernelOf ctx 0 [n2], trainKernelOf ctx 1 [n1]] := by
  have h1 : n1.getTrainChunk.getSize % wordSize = n1.getTrainChunk.getSize :=
    Nat.mod_eq_of_lt (by omega)
  have h2 : n2.getTrainChunk.getSize % wordSize = n2.getTrainChunk.getSize :=
    Nat.mod_eq_of_lt (by omega)
  have h3 : (n2.getTrainChunk.getSize + n1.getTrainChunk.getSize) % wordSize
      = n2.getTrainChunk.getSize + n1.getTrainChunk.getSize := Nat.mod_eq_of_lt hword
  have hg : trainKernelNeurons [[n1, n2]] 6 = [[n2], [n1]] := by
    simp [trainKernelNeurons, forwardOrder, Packing.groups, Packing.groupsFrom,
      Packing.wsum, trainPacking, trainSize, trnn_max, h1, h2, h3, hbig]
  rw [compileTrainKernels_eq, hg]
  rfl

/-- Witness of `spec_example_train` on two sample neurons of train size 70. -/
theorem spec_example_train_witness :
    compileTrainKernels sampleContext
        [[sampleNeuron 5 3 70 "1", sampleNeuron 5 3 70 "2"]] 6
      = [trainKernelOf sampleContext 0 [sampleNeuron 5 3 70 "2"],
          trainKernelOf sampleContext 1 [sampleNeuron 5 3 70 "1"]] :=
  spec_example_train sampleContext (sampleNeuron 5 3 70 "1") (sampleNeuron 5 3 70 "2")
    (by decide) (by decide)

/-! ## Non-emptiness and `isBuilt` -/

/-- C9: the list returned by `compileFeedKernels` is non-empty exactly when some
layer of the graph holds a neuron. -/
theorem feed_kernels_nonempty_iff (ctx : HardcodedTrainingContext)
    (layers : HardcodedLayers) (B : Nat) :
    compileFeedKernels ctx layers B ≠ [] ↔ ∃ layer ∈ layers, ∃ n, n ∈ layer := by
  have h1 : compileFeedKernels ctx layers B = [] ↔ layers.flatten = [] := by
    rw [← List.length_eq_zero, feedKernels_length, List.length_eq_zero]
    exact Packing.groups_eq_nil_iff _ _
  rw [Ne, h1]
  constructor
  · intro h
    obtain ⟨n, hn⟩ := List.exists_mem_of_ne_nil _ h
    obtain ⟨layer, hl, hnl⟩ := List.mem_flatten.1 hn
    exact ⟨layer, hl, n, hnl⟩
  · rintro ⟨layer, hl, n, hnl⟩ h
    have : n ∈ layers.flatten := List.mem_flatten.2 ⟨layer, hl, hnl⟩
    rw [h] at this
    exact absurd this (List.not_mem_nil n)

theorem foldl_and_isBuilt (ks : List Kernel) :
    ∀ b : Bool, ks.foldl (fun built kernel => built && kernel.isBuilt) b = true
      ↔ b = true ∧ ∀ k ∈ ks, k.isBuilt = true := by
  induction ks with
  | nil => intro b; simp
  | cons k ks ih =>
    intro b
    rw [List.foldl_cons, ih]
    simp [and_assoc]

/-- C10: `isBuilt()` returns true exactly when `feedKernels` is non-empty,
`trainKernels` is non-empty, and every kernel of both collections has its `isBuilt`
flag set. -/
theorem isBuilt_iff (net : HardcodedNetwork) :
    net.isBuilt = true ↔
      net.feedKernels ≠ [] ∧ net.trainKernels ≠ [] ∧
        (∀ k ∈ net.feedKernels, k.isBuilt = true) ∧
        (∀ k ∈ net.trainKernels, k.isBuilt = true) := by
  unfold HardcodedNetwork.isBuilt
  simp only [foldl_and_isBuilt, Bool.and_eq_true, Bool.not_eq_true', List.isEmpty_eq_false]
  tauto

/-! ## Persistence round trip -/

theorem isBuilt_false_of_unbuilt (net : HardcodedNetwork)
    (h : ∀ k ∈ net.feedKernels ++ net.trainKernels, k.isBuilt = false) :
    net.isBuilt = false := by
  cases hb : net.isBuilt with
  | false => rfl
  | true =>
    exfalso
    unfold HardcodedNetwork.isBuilt at hb
    simp only [foldl_and_isBuilt, Bool.and_eq_true, Bool.not_eq_true',
      List.isEmpty_eq_false] at hb
    obtain ⟨⟨⟨hne, _⟩, hall⟩, _⟩ := hb
    obtain ⟨k, hk⟩ := List.exists_mem_of_ne_nil _ hne
    have h1 := hall k hk
    have h2 := h k (List.mem_append_left _ hk)
    rw [h1] at h2
    exact absurd h2 (by decide)

theorem foldlM_deserialize (cs : List (String × SerializationContext)) :
    ∀ (rs : List (Nat × String × String)) (acc : List Kernel),
      cs.map (fun child =>
          (child.2.getNumberProperty Keys.Hardcoded.NumExpressions,
            child.2.getStringProperty Keys.Hardcoded.EntryPoint,
            child.2.getStringProperty Keys.Hardcoded.FullSource))
        = rs.map presentRecord →
      (∀ r ∈ rs, r.1 < wordSize) →
      cs.foldlM
          (fun kernels kernelNode =>
            match Kernel.new.deserialize kernelNode.2 with
            | some kernel => some (kernels ++ [kernel])
            | none => none)
          acc
        = some (acc ++ rs.map kernelOfRecord) := by
  induction cs with
  | nil =>
    intro rs acc h _
    cases rs with
    | nil => simp
    | cons r rs => simp at h
  | cons c cs ih =>
    intro rs acc h hn
    cases rs with
    | nil => simp at h
    | cons r rs =>
      simp only [List.map_cons, List.cons.injEq, presentRecord, Prod.mk.injEq] at h
      obtain ⟨⟨h1, h2, h3⟩, hrest⟩ := h
      have hr : r.1 % wordSize = r.1 := Nat.mod_eq_of_lt (hn r (by simp))
      have hd : Kernel.new.deserialize c.2 = some (kernelOfRecord r) := by
        simp [Kernel.deserialize, h1, h2, h3, hr, kernelOfRecord, Kernel.new]
      rw [List.foldlM_cons]
      simp only [hd]
      have := ih rs (acc ++ [kernelOfRecord r]) hrest
        (fun r2 h2 => hn r2 (List.mem_cons_of_mem _ h2))
      simpa using this

theorem deserializeKernels_of_records (x : SerializationContext) (key : String)
    (rs : List (Nat × String × String))
    (h : x.kernelRecords key = some (rs.map presentRecord))
    (hn : ∀ r ∈ rs, r.1 < wordSize) :
    ∃ node, x.getChildContext key = some node ∧
      deserializeKernels node [] = some (rs.map kernelOfRecord) := by
  unfold SerializationContext.kernelRecords at h
  cases hc : x.getChildContext key with
  | none => simp [hc] at h
  | some node =>
    refine ⟨node, rfl, ?_⟩
    simp only [hc, Option.map_some', Option.some.injEq] at h
    have := foldlM_deserialize node.children rs [] h hn
    simpa [deserializeKernels] using this

theorem children_createChildContext (c : SerializationContext) (key : String)
    (child : SerializationContext) :
    (c.createChildContext key child).children = c.children ++ [(key, child)] := rfl

theorem children_empty : SerializationContext.empty.children = [] := rfl

theorem children_foldl_createChild (key : String) (ks : List Kernel) :
    ∀ node : SerializationContext,
      (ks.foldl
          (fun node kernel =>
            node.createChildContext key (kernel.serialize SerializationContext.empty))
          node).children
        = node.children ++ ks.map (fun k => (key, k.serialize SerializationContext.empty)) := by
  induction ks with
  | nil => intro node; simp
  | cons k ks ih =>
    intro node
    rw [List.foldl_cons, ih, children_createChildContext]
    simp

theorem kernel_serialize_props (k : Kernel) :
    (k.serialize SerializationContext.empty).getNumberProperty Keys.Hardcoded.NumExpressions
        = some k.numExpressions ∧
      (k.serialize SerializationContext.empty).getStringProperty Keys.Hardcoded.EntryPoint
        = some k.entryPoint ∧
      (k.serialize SerializationContext.empty).getStringProperty Keys.Hardcoded.FullSource
        = some k.fullSource := by
  refine ⟨?_, ?_, ?_⟩
  · simp [Kernel.serialize, SerializationContext.getNumberProperty,
      SerializationContext.setNumberProperty, SerializationContext.setStringProperty,
      SerializationContext.numbers, SerializationContext.empty, List.lookup]
  · have hne : (Keys.Hardcoded.EntryPoint == Keys.Hardcoded.FullSource) = false := by decide
    simp [Kernel.serialize, SerializationContext.getStringProperty,
      SerializationContext.setNumberProperty, SerializationContext.setStringProperty,
      SerializationContext.strings, SerializationContext.empty, List.lookup, hne]
  · simp [Kernel.serialize, SerializationContext.getStringProperty,
      SerializationContext.setNumberProperty, SerializationContext.setStringProperty,
      SerializationContext.strings, SerializationContext.empty, List.lookup]

/-- What a serialized network carries under its two list keys. -/
theorem serialize_kernelRecords (net : HardcodedNetwork) :
    (net.serialize SerializationContext.empty).kernelRecords Keys.Hardcoded.FeedKernels
        = some (net.feedKernels.map fun k =>
            (some k.numExpressions, some k.entryPoint, some k.fullSource)) ∧
      (net.serialize SerializationContext.empty).kernelRecords Keys.Hardcoded.TrainKernels
        = some (net.trainKernels.map fun k =>
            (some k.numExpressions, some k.entryPoint, some k.fullSource)) := by
  have hne : (Keys.Hardcoded.TrainKernels == Keys.Hardcoded.FeedKernels) = false := by decide
  have hp : ∀ ks : List Kernel, ∀ key : String,
      (ks.map (fun k => (key, k.serialize SerializationContext.empty))).map
          (fun child =>
            (child.2.getNumberProperty Keys.Hardcoded.NumExpressions,
              child.2.getStringProperty Keys.Hardcoded.EntryPoint,
              child.2.getStringProperty Keys.Hardcoded.FullSource))
        = ks.map fun k => (some k.numExpressions, some k.entryPoint, some k.fullSource) := by
    intro ks key
    rw [List.map_map]
    apply List.map_congr_left
    intro k _
    simp [kernel_serialize_props]
  constructor
  · simp only [HardcodedNetwork.serialize, SerializationContext.kernelRecords,
      SerializationContext.getChildContext, children_createChildContext, children_empty,
      List.nil_append, List.cons_append, List.lookup, beq_self_eq_true, Option.map_some',
      children_foldl_createChild, hp]
  · simp only [HardcodedNetwork.serialize, SerializationContext.kernelRecords,
      SerializationContext.getChildContext, children_createChildContext, children_empty,
      List.nil_append, List.cons_append, List.lookup, beq_self_eq_true, Option.map_some',
      children_foldl_createChild, hp, hne]

/-- C11: for every persisted record `x` whose `FeedKernels` and `TrainKernels` child
lists carry, for each child, `NumExpressions` (a count that fits `size_t`),
`EntryPoint` and `FullSource`, deserializing `x` into a network in any prior state
succeeds; the kernels read are those of the record, in order; serializing the
result gives a record with the same kernel data under both list keys; and right
after the deserialization every kernel is unbuilt, so `isBuilt()` is false. -/
theorem serialize_deserialize_roundtrip (net : HardcodedNetwork) (x : SerializationContext)
    (fs ts : List (Nat × String × String))
    (hf : x.kernelRecords Keys.Hardcoded.FeedKernels = some (fs.map presentRecord))
    (ht : x.kernelRecords Keys.Hardcoded.TrainKernels = some (ts.map presentRecord))
    (hn : ∀ r ∈ fs ++ ts, r.1 < wordSize) :
    ∃ net2, net.deserialize x = some net2 ∧
      net2.feedKernels = fs.map kernelOfRecord ∧
      net2.trainKernels = ts.map kernelOfRecord ∧
      (net2.serialize SerializationContext.empty).kernelRecords Keys.Hardcoded.FeedKernels
        = x.kernelRecords Keys.Hardcoded.FeedKernels ∧
      (net2.serialize SerializationContext.empty).kernelRecords Keys.Hardcoded.TrainKernels
        = x.kernelRecords Keys.Hardcoded.TrainKernels ∧
      (∀ k ∈ net2.feedKernels ++ net2.trainKernels, k.isBuilt = false) ∧
      net2.isBuilt = false := by
  obtain ⟨fnode, hfc, hfd⟩ := deserializeKernels_of_records x _ fs hf
    (fun r hr => hn r (List.mem_append_left _ hr))
  obtain ⟨tnode, htc, htd⟩ := deserializeKernels_of_records x _ ts ht
    (fun r hr => hn r (List.mem_append_right _ hr))
  have hunbuilt : ∀ k ∈ fs.map kernelOfRecord ++ ts.map kernelOfRecord,
      k.isBuilt = false := by
    intro k hk
    rcases List.mem_append.1 hk with h | h
    · obtain ⟨r, _, rfl⟩ := List.mem_map.1 h; rfl
    · obtain ⟨r, _, rfl⟩ := List.mem_map.1 h; rfl
  refine ⟨{ net with feedKernels := fs.map kernelOfRecord,
                     trainKernels := ts.map kernelOfRecord }, ?_, rfl, rfl, ?_, ?_,
    hunbuilt, isBuilt_false_of_unbuilt _ hunbuilt⟩
  · simp [HardcodedNetwork.deserialize, hfc, hfd, htc, htd]
  · rw [(serialize_kernelRecords _).1, hf, List.map_map]
    rfl
  · rw [(serialize_kernelRecords _).2, ht, List.map_map]
    rfl

/-- Witness of `serialize_deserialize_roundtrip`: a record with two feed kernels and
one train kernel, read into a network that held a built kernel. -/
theorem serialize_deserialize_roundtrip_witness :
    ∃ net2,
      HardcodedNetwork.deserialize
          { trainingContext := sampleContext
            feedKernels := [{ isBuilt := true, numExpressions := 1, fullSource := "old",
                              entryPoint := "feed_0" }]
            trainKernels := [] }
          sampleRecord = some net2 ∧
      net2.feedKernels = [(3, "feed_0", "a"), (4, "feed_1", "b")].map kernelOfRecord ∧
      net2.trainKernels = [(5, "train_0", "c")].map kernelOfRecord ∧
      (net2.serialize SerializationContext.empty).kernelRecords Keys.Hardcoded.FeedKernels
        = sampleRecord.kernelRecords Keys.Hardcoded.FeedKernels ∧
      (net2.serialize SerializationContext.empty).kernelRecords Keys.Hardcoded.TrainKernels
        = sampleRecord.kernelRecords Keys.Hardcoded.TrainKernels ∧
      (∀ k ∈ net2.feedKernels ++ net2.trainKernels, k.isBuilt = false) ∧
      net2.isBuilt = false :=
  serialize_deserialize_roundtrip _ sampleRecord
    [(3, "feed_0", "a"), (4, "feed_1", "b")] [(5, "train_0", "c")]
    (by decide) (by decide) (by decide)

/-! ## `asStandalone` -/

theorem header_key_ne_source_key (name : String) :
    (name ++ ".h" == name ++ ".c") = false := by
  rw [beq_eq_false_iff_ne]
  intro h
  have h2 := congrArg String.data h
  simp only [String.data_append, List.append_cancel_left_eq] at h2
  revert h2
  decide

theorem assignEntry_two (name header source : String) :
    assignEntry (assignEntry [] (name ++ ".h") header) (name ++ ".c") source
      = [(name ++ ".h", header), (name ++ ".c", source)] := by
  simp [assignEntry, header_key_ne_source_key]

theorem asStandalone_of_empty (platform : Platform) (net : HardcodedNetwork)
    (name : String) (asConst : Bool) (h : net.feedKernels = []) :
    net.asStandalone platform name asConst = Except.ok [] := by
  simp [HardcodedNetwork.asStandalone, h]

theorem asStandalone_const (platform : Platform) (net : HardcodedNetwork)
    (name : String) (kf : Kernel) (rf : List Kernel) (h : net.feedKernels = kf :: rf) :
    net.asStandalone platform name true
      = Except.ok
          [(name ++ ".h", standaloneHeader platform net.trainingContext name true),
            (name ++ ".c",
              standaloneSource platform net.trainingContext name true kf Kernel.new)] := by
  simp [HardcodedNetwork.asStandalone, h, assignEntry_two]

theorem asStandalone_trainable (platform : Platform) (net : HardcodedNetwork)
    (name : String) (kf kt : Kernel) (rf rt : List Kernel)
    (h : net.feedKernels = kf :: rf) (ht : net.trainKernels = kt :: rt) :
    net.asStandalone platform name false
      = Except.ok
          [(name ++ ".h", standaloneHeader platform net.trainingContext name false),
            (name ++ ".c",
              standaloneSource platform net.trainingContext name false kf kt)] := by
  simp [HardcodedNetwork.asStandalone, h, ht, assignEntry_two]

theorem asStandalone_untrainable (platform : Platform) (net : HardcodedNetwork)
    (name : String) (kf : Kernel) (rf : List Kernel)
    (h : net.feedKernels = kf :: rf) (ht : net.trainKernels = []) :
    net.asStandalone platform name false
      = Except.error StandaloneFault.trainKernelsFrontOfEmpty := by
  simp [HardcodedNetwork.asStandalone, h, ht]

theorem compileFeedKernels_eq_nil_iff (ctx : HardcodedTrainingContext)
    (layers : HardcodedLayers) (b : Nat) :
    compileFeedKernels ctx layers b = [] ↔ forwardOrder layers = [] := by
  rw [← List.length_eq_zero, feedKernels_length, List.length_eq_zero]
  exact Packing.groups_eq_nil_iff _ _

theorem compileTrainKernels_eq_nil_iff (ctx : HardcodedTrainingContext)
    (layers : HardcodedLayers) (b : Nat) :
    compileTrainKernels ctx layers b = [] ↔ forwardOrder layers = [] := by
  rw [← List.length_eq_zero, trainKernels_length, List.length_eq_zero, trainKernelNeurons,
    Packing.groups_eq_nil_iff]
  simp

theorem newFromLayers_of_reaches (acc : Acceleration) (ctx : HardcodedTrainingContext)
    (layers : HardcodedLayers) (b : Nat) (h : acc.reachesAssembly = true) :
    HardcodedNetwork.newFromLayers acc ctx layers b
      = { trainingContext := ctx
          feedKernels := compileFeedKernels ctx layers b
          trainKernels := compileTrainKernels ctx layers b } := by
  cases acc with
  | disabled => rfl
  | enabled cl =>
    simp only [Acceleration.reachesAssembly, Bool.and_eq_true] at h
    simp [HardcodedNetwork.newFromLayers, HardcodedNetwork.initialize, h.1, h.2]

theorem newFromLayers_of_not_reaches (acc : Acceleration) (ctx : HardcodedTrainingContext)
    (layers : HardcodedLayers) (b : Nat) (h : acc.reachesAssembly = false) :
    HardcodedNetwork.newFromLayers acc ctx layers b
      = { trainingContext := ctx, feedKernels := [], trainKernels := [] } := by
  cases acc with
  | disabled => simp [Acceleration.reachesAssembly] at h
  | enabled cl =>
    simp only [Acceleration.reachesAssembly, Bool.and_eq_false_iff] at h
    rcases h with h | h
    · simp [HardcodedNetwork.newFromLayers, HardcodedNetwork.initialize, h]
    · cases hp : cl.platformFound <;>
        simp [HardcodedNetwork.newFromLayers, HardcodedNetwork.initialize, h, hp]

theorem newFromLayers_kernels_cases (acc : Acceleration) (ctx : HardcodedTrainingContext)
    (layers : HardcodedLayers) (b : Nat) :
    ((HardcodedNetwork.newFromLayers acc ctx layers b).feedKernels = [] ∧
        (HardcodedNetwork.newFromLayers acc ctx layers b).trainKernels = []) ∨
      ∃ kf rf kt rt,
        (HardcodedNetwork.newFromLayers acc ctx layers b).feedKernels = kf :: rf ∧
        (HardcodedNetwork.newFromLayers acc ctx layers b).trainKernels = kt :: rt := by
  cases hr : acc.reachesAssembly with
  | false => left; rw [newFromLayers_of_not_reaches acc ctx layers b hr]; exact ⟨rfl, rfl⟩
  | true =>
    rw [newFromLayers_of_reaches acc ctx layers b hr]
    by_cases hl : forwardOrder layers = []
    · left
      exact ⟨(compileFeedKernels_eq_nil_iff ctx layers b).2 hl,
        (compileTrainKernels_eq_nil_iff ctx layers b).2 hl⟩
    · right
      have hf : compileFeedKernels ctx layers b ≠ [] :=
        fun h => hl ((compileFeedKernels_eq_nil_iff ctx layers b).1 h)
      have ht : compileTrainKernels ctx layers b ≠ [] :=
        fun h => hl ((compileTrainKernels_eq_nil_iff ctx layers b).1 h)
      obtain ⟨kf, rf, hf2⟩ := List.exists_cons_of_ne_nil hf
      obtain ⟨kt, rt, ht2⟩ := List.exists_cons_of_ne_nil ht
      exact ⟨kf, rf, kt, rt, hf2, ht2⟩

/-- C12 as stated fails: in a build with OpenCL acceleration on a machine without an
OpenCL platform, the network built from a graph with one neuron has no kernels and
`asStandalone` returns an empty map, not two entries. -/
theorem standalone_entries_counterexample :
    forwardOrder [[sampleNeuron 5 3 7 "1"]] ≠ [] ∧
      (HardcodedNetwork.newFromLayers sampleNoPlatform sampleContext
          [[sampleNeuron 5 3 7 "1"]] 6).asStandalone samplePlatform "net" true
        = Except.ok [] := by
  constructor
  · decide
  · rfl

/-- C12, amended: for every name and both values of `asConst`, `asStandalone` on a
network built from a graph without neurons returns an empty map; on a network built
from a graph with at least one neuron it returns a map with exactly two entries,
keyed `name + ".h"` and `name + ".c"`, when `initialize` reaches the kernel
assembly (no OpenCL acceleration compiled in, or a platform and a device found);
when `initialize` stops before the assembly it returns an empty map for every
graph. -/
theorem standalone_entries (acc : Acceleration) (platform : Platform)
    (ctx : HardcodedTrainingContext) (layers : HardcodedLayers) (B : Nat)
    (name : String) (asConst : Bool) :
    (HardcodedNetwork.new acc ctx).asStandalone platform name asConst = Except.ok [] ∧
      (forwardOrder layers = [] →
        (HardcodedNetwork.newFromLayers acc ctx layers B).asStandalone platform name asConst
          = Except.ok []) ∧
      (acc.reachesAssembly = true → forwardOrder layers ≠ [] →
        ∃ header source,
          (HardcodedNetwork.newFromLayers acc ctx layers B).asStandalone platform name
              asConst
            = Except.ok [(name ++ ".h", header), (name ++ ".c", source)]) ∧
      (acc.reachesAssembly = false →
        (HardcodedNetwork.newFromLayers acc ctx layers B).asStandalone platform name asConst
          = Except.ok []) := by
  have hempty : ∀ ls : HardcodedLayers, ∀ b : Nat, forwardOrder ls = [] →
      (HardcodedNetwork.newFromLayers acc ctx ls b).asStandalone platform name asConst
        = Except.ok [] := by
    intro ls b hl
    apply asStandalone_of_empty
    cases hr : acc.reachesAssembly with
    | false => rw [newFromLayers_of_not_reaches acc ctx ls b hr]
    | true =>
      rw [newFromLayers_of_reaches acc ctx ls b hr]
      exact (compileFeedKernels_eq_nil_iff ctx ls b).2 hl
  refine ⟨hempty [] 0 rfl, hempty layers B, ?_, ?_⟩
  · intro hr hl
    rcases newFromLayers_kernels_cases acc ctx layers B with ⟨hf, _⟩ | ⟨kf, rf, kt, rt, hf, ht⟩
    · rw [newFromLayers_of_reaches acc ctx layers B hr] at hf
      exact absurd ((compileFeedKernels_eq_nil_iff ctx layers B).1 hf) hl
    · cases asConst with
      | true => exact ⟨_, _, asStandalone_const platform _ name kf rf hf⟩
      | false => exact ⟨_, _, asStandalone_trainable platform _ name kf kt rf rt hf ht⟩
  · intro hr
    apply asStandalone_of_empty
    rw [newFromLayers_of_not_reaches acc ctx layers B hr]

/-- C19: for every network built by the constructor from any graph and budget,
`trainKernels` is empty exactly when `feedKernels` is empty; hence `asStandalone`
on such a network never reads `front()` of an empty vector: it returns a map. -/
theorem constructor_kernels_both_or_neither (acc : Acceleration)
    (ctx : HardcodedTrainingContext) (layers : HardcodedLayers) (B : Nat) :
    ((HardcodedNetwork.newFromLayers acc ctx layers B).trainKernels = [] ↔
        (HardcodedNetwork.newFromLayers acc ctx layers B).feedKernels = []) ∧
      ∀ (platform : Platform) (name : String) (asConst : Bool),
        ∃ result,
          (HardcodedNetwork.newFromLayers acc ctx layers B).asStandalone platform name
              asConst
            = Except.ok result := by
  rcases newFromLayers_kernels_cases acc ctx layers B with ⟨hf, ht⟩ | ⟨kf, rf, kt, rt, hf, ht⟩
  · refine ⟨by simp [hf, ht], ?_⟩
    intro platform name asConst
    exact ⟨_, asStandalone_of_empty platform _ name asConst hf⟩
  · refine ⟨by simp [hf, ht], ?_⟩
    intro platform name asConst
    cases asConst with
    | true => exact ⟨_, asStandalone_const platform _ name kf rf hf⟩
    | false => exact ⟨_, asStandalone_trainable platform _ name kf kt rf rt hf ht⟩

/-- C20: there is a well-formed persisted record, with one feed kernel and no train
kernel, such that after deserializing it into any network `asStandalone(name,
false)` passes the empty-feed guard and reads `front()` of the empty `trainKernels`
(the fault of the model). -/
theorem deserialized_standalone_reads_empty_front (net : HardcodedNetwork)
    (platform : Platform) (name : String) :
    sampleUntrainableRecord.kernelRecords Keys.Hardcoded.FeedKernels
        = some [presentRecord (3, "feed_0", "a")] ∧
      sampleUntrainableRecord.kernelRecords Keys.Hardcoded.TrainKernels = some [] ∧
      ∃ net2, net.deserialize sampleUntrainableRecord = some net2 ∧
        net2.feedKernels ≠ [] ∧ net2.trainKernels = [] ∧
        net2.asStandalone platform name false
          = Except.error StandaloneFault.trainKernelsFrontOfEmpty := by
  refine ⟨by decide, by decide,
    { net with feedKernels := [kernelOfRecord (3, "feed_0", "a")], trainKernels := [] },
    by rfl, by simp, rfl, ?_⟩
  exact asStandalone_untrainable platform _ name _ [] rfl rfl

/-! ## The array initializers of `asStandalone` -/

theorem join_cons (a : String) (l : List String) :
    String.join (a :: l) = a ++ String.join l := by
  apply String.ext
  simp

theorem appendValues_range' (platform : Platform) (vs : List Value) :
    ∀ (pre : List Value) (s : String),
      (List.range' pre.length vs.length).foldl
          (fun source i =>
            if i % 8 = 8 - 1 then
              source ++ platform.printValue ((pre ++ vs).getD i Value.zero) ++ ", " ++ "\n"
            else source ++ platform.printValue ((pre ++ vs).getD i Value.zero) ++ ", ")
          s
        = s ++ String.join ((vs.enumFrom pre.length).map fun iv =>
            platform.printValue iv.2 ++ ", " ++ (if iv.1 % 8 = 7 then "\n" else "")) := by
  induction vs with
  | nil => intro pre s; apply String.ext; simp
  | cons v vs ih =>
    intro pre s
    have hget : (pre ++ v :: vs).getD pre.length Value.zero = v := by
      rw [List.getD_eq_getElem?_getD, List.getElem?_append_right (Nat.le_refl _)]
      simp
    have hih := ih (pre ++ [v])
    simp only [List.length_append, List.length_singleton, List.append_assoc,
      List.singleton_append] at hih
    rw [List.length_cons, List.range'_succ, List.foldl_cons, hget, hih,
      List.enumFrom_cons, List.map_cons, join_cons]
    by_cases h7 : pre.length % 8 = 7
    · simp [h7, String.append_assoc]
    · simp [h7, String.append_assoc]

/-- The value loop appends exactly the entries of the initializer. -/
theorem appendValues_eq (platform : Platform) (values : RawData) (source : String) :
    appendValues platform values source
      = source ++ String.join (initializerEntries platform values) := by
  have h := appendValues_range' platform values [] source
  simp only [List.length_nil, List.nil_append] at h
  unfold appendValues initializerEntries
  rw [List.range_eq_range', List.enum]
  rw [← h]

theorem appendArrays_eq (platform : Platform) (ctx : HardcodedTrainingContext)
    (source : String) :
    appendArrays platform ctx source
      = source ++ arrayDefinition platform ctx "kMemory" ctx.getMemory ++ "\n"
          ++ arrayDefinition platform ctx "kOutputs" ctx.getOutputs := by
  unfold appendArrays arrayDefinition
  simp only [appendValues_eq]
  apply String.ext
  simp [List.append_assoc]

theorem range_countP_mod_eight (n : Nat) :
    (List.range n).countP (fun i => i % 8 = 7) = n / 8 := by
  induction n with
  | zero => rfl
  | succ n ih =>
    rw [List.range_succ, List.countP_append, ih]
    by_cases h : n % 8 = 7
    · simp [h]; omega
    · simp [h]; omega

theorem asStandalone_source_suffix (platform : Platform) (net : HardcodedNetwork)
    (name : String) (asConst : Bool) (kf : Kernel) (rf : List Kernel)
    (hfeed : net.feedKernels = kf :: rf)
    (htrain : asConst = true ∨ net.trainKernels ≠ []) :
    ∃ header pre,
      net.asStandalone platform name asConst
        = Except.ok
            [(name ++ ".h", header),
              (name ++ ".c",
                pre ++ arrayDefinition platform net.trainingContext "kMemory"
                    net.trainingContext.getMemory ++ "\n"
                  ++ arrayDefinition platform net.trainingContext "kOutputs"
                    net.trainingContext.getOutputs)] := by
  cases asConst with
  | true =>
    refine ⟨standaloneHeader platform net.trainingContext name true,
      standaloneFunctions net.trainingContext name true kf Kernel.new, ?_⟩
    rw [asStandalone_const platform net name kf rf hfeed, standaloneSource, appendArrays_eq]
  | false =>
    have hne : net.trainKernels ≠ [] := by
      rcases htrain with h | h
      · exact absurd h (by decide)
      · exact h
    obtain ⟨kt, rt, ht⟩ := List.exists_cons_of_ne_nil hne
    refine ⟨standaloneHeader platform net.trainingContext name false,
      standaloneFunctions net.trainingContext name false kf kt, ?_⟩
    rw [asStandalone_trainable platform net name kf kt rf rt hfeed ht, standaloneSource,
      appendArrays_eq]

/-- C13: when `asStandalone` emits the two texts (a first feed kernel exists and,
unless `asConst`, a first train kernel), the implementation text ends with the
definition of `kMemory`, a blank line, and the definition of `kOutputs`.  Each
definition lists the current values of its buffer in index order, each followed by
`", "`, with a line break after the entry at index `i` exactly when `i mod 8 = 7`,
and ends with the sentinel `"0 }; "`: a buffer of length `n` gives `n` value entries
plus the sentinel, and `n / 8` line breaks inside the value list. -/
theorem standalone_array_initializers (platform : Platform) (net : HardcodedNetwork)
    (name : String) (asConst : Bool) (kf : Kernel) (rf : List Kernel)
    (hfeed : net.feedKernels = kf :: rf)
    (htrain : asConst = true ∨ net.trainKernels ≠ []) :
    (∃ header pre,
      net.asStandalone platform name asConst
        = Except.ok
            [(name ++ ".h", header),
              (name ++ ".c",
                pre ++ arrayDefinition platform net.trainingContext "kMemory"
                    net.trainingContext.getMemory ++ "\n"
                  ++ arrayDefinition platform net.trainingContext "kOutputs"
                    net.trainingContext.getOutputs)]) ∧
      (∀ (arrayName : String) (values : RawData),
        arrayDefinition platform net.trainingContext arrayName values
            = valueString net.trainingContext ++ " " ++ arrayName ++ "[] = \n\x7b \n"
                ++ String.join (values.enum.map fun iv =>
                    platform.printValue iv.2 ++ ", " ++ (if iv.1 % 8 = 7 then "\n" else ""))
                ++ "0 \x7d; \n" ∧
          (values.enum.map fun iv =>
              platform.printValue iv.2 ++ ", " ++ (if iv.1 % 8 = 7 then "\n" else "")).length
              + 1 = values.length + 1 ∧
          (List.range values.length).countP (fun i => i % 8 = 7) = values.length / 8) := by
  refine ⟨asStandalone_source_suffix platform net name asConst kf rf hfeed htrain, ?_⟩
  intro arrayName values
  refine ⟨rfl, by simp, range_countP_mod_eight _⟩

/-- Witness of `standalone_array_initializers`: a network with one feed kernel and a
memory buffer of nine values, exported with `asConst`. -/
theorem standalone_array_initializers_witness :
    (∃ header pre,
      HardcodedNetwork.asStandalone samplePlatform sampleStandaloneNetwork "net" true
        = Except.ok
            [("net" ++ ".h", header),
              ("net" ++ ".c",
                pre ++ arrayDefinition samplePlatform sampleStandaloneNetwork.trainingContext
                    "kMemory" sampleStandaloneNetwork.trainingContext.getMemory ++ "\n"
                  ++ arrayDefinition samplePlatform sampleStandaloneNetwork.trainingContext
                    "kOutputs" sampleStandaloneNetwork.trainingContext.getOutputs)]) ∧
      arrayDefinition samplePlatform sampleStandaloneNetwork.trainingContext "kMemory"
          sampleStandaloneNetwork.trainingContext.getMemory
        = "double kMemory[] = \n\x7b \n1, 2, 3, 4, 5, 6, 7, 8, \n9, 0 \x7d; \n" :=
  ⟨(standalone_array_initializers samplePlatform sampleStandaloneNetwork "net" true
      (feedKernelOf sampleContext 0 []) [] rfl (Or.inl rfl)).1, by decide⟩

/-! ## `asStandalone` reads the first kernels only -/

theorem source_key_ne_header_key (name : String) :
    (name ++ ".c" == name ++ ".h") = false := by
  rw [beq_eq_false_iff_ne]
  intro h
  have h2 := congrArg String.data h
  simp only [String.data_append, List.append_cancel_left_eq] at h2
  revert h2
  decide

theorem lookup_header (name header source : String) :
    List.lookup (name ++ ".h") [(name ++ ".h", header), (name ++ ".c", source)]
      = some header := by
  simp [List.lookup]

theorem lookup_source (name header source : String) :
    List.lookup (name ++ ".c") [(name ++ ".h", header), (name ++ ".c", source)]
      = some source := by
  simp [List.lookup, source_key_ne_header_key]

theorem standaloneSource_congr (platform1 platform2 : Platform)
    (ctx1 ctx2 : HardcodedTrainingContext) (name : String) (asConst : Bool)
    (kf kt : Kernel)
    (hprint : platform1.printValue = platform2.printValue)
    (hvalue : ctx1.valueIsDouble = ctx2.valueIsDouble)
    (hmem : ctx1.getMemory = ctx2.getMemory) (hout : ctx1.getOutputs = ctx2.getOutputs) :
    standaloneSource platform1 ctx1 name asConst kf kt
      = standaloneSource platform2 ctx2 name asConst kf kt := by
  simp only [standaloneSource, standaloneFunctions, appendArrays, appendValues, valueString,
    hprint, hvalue, hmem, hout]

theorem standaloneSource_const (platform : Platform) (ctx : HardcodedTrainingContext)
    (name : String) (kf kt1 kt2 : Kernel) :
    standaloneSource platform ctx name true kf kt1
      = standaloneSource platform ctx name true kf kt2 := by
  simp [standaloneSource, standaloneFunctions]

/-- C14: `asStandalone` exports only the first kernel of each collection.  For two
networks of one build (same `Value` type and value printing) with the same memory
and outputs buffers, the same first feed kernel and, when `asConst` is false, the
same first train kernel, the implementation text `name + ".c"` is the same whatever
the remaining kernels are.  When `asConst` is true the result does not depend on the
train kernels at all, and the interface text is the given one, which declares the
Feed entry point and no Train entry point: this is the text of `standaloneHeader`
and, whenever a first feed kernel exists, the text under `name + ".h"` in the map
that `asStandalone` returns. -/
theorem standalone_first_kernels_only (platform1 platform2 : Platform)
    (net1 net2 : HardcodedNetwork) (name : String) (asConst : Bool)
    (hprint : platform1.printValue = platform2.printValue)
    (hvalue : net1.trainingContext.valueIsDouble = net2.trainingContext.valueIsDouble)
    (hmem : net1.trainingContext.getMemory = net2.trainingContext.getMemory)
    (hout : net1.trainingContext.getOutputs = net2.trainingContext.getOutputs)
    (hfeed : net1.feedKernels.head? = net2.feedKernels.head?)
    (htrain : asConst = false → net1.trainKernels.head? = net2.trainKernels.head?) :
    Except.map (List.lookup (name ++ ".c")) (net1.asStandalone platform1 name asConst)
        = Except.map (List.lookup (name ++ ".c")) (net2.asStandalone platform2 name asConst) ∧
      (∀ otherTrainKernels : List Kernel,
        HardcodedNetwork.asStandalone platform1
            { net1 with trainKernels := otherTrainKernels } name true
          = net1.asStandalone platform1 name true) ∧
      standaloneHeader platform1 net1.trainingContext name true
        = "#ifndef TINYRNN_STANDALONE_GUARD_" ++ platform1.generateIsoUuid ++ "\n"
          ++ "#define TINYRNN_STANDALONE_GUARD_" ++ platform1.generateIsoUuid ++ "\n\n"
          ++ "extern " ++ valueString net1.trainingContext ++ " kMemory[];\n"
          ++ "const int kMemorySize = " ++ toString net1.trainingContext.getMemory.length
          ++ ";\n\n"
          ++ "extern " ++ valueString net1.trainingContext ++ " kOutputs[];\n"
          ++ "const int kOutputsSize = " ++ toString net1.trainingContext.getOutputs.length
          ++ ";\n\n"
          ++ "void " ++ name ++ "Feed(const " ++ valueString net1.trainingContext
          ++ " *input);\n\n"
          ++ "#endif //TINYRNN_STANDALONE_GUARD_" ++ platform1.generateIsoUuid ++ "\n" ∧
      (∀ (kf : Kernel) (rf : List Kernel), net1.feedKernels = kf :: rf →
        Except.map (List.lookup (name ++ ".h")) (net1.asStandalone platform1 name true)
          = Except.ok (some
            ("#ifndef TINYRNN_STANDALONE_GUARD_" ++ platform1.generateIsoUuid ++ "\n"
              ++ "#define TINYRNN_STANDALONE_GUARD_" ++ platform1.generateIsoUuid ++ "\n\n"
              ++ "extern " ++ valueString net1.trainingContext ++ " kMemory[];\n"
              ++ "const int kMemorySize = "
              ++ toString net1.trainingContext.getMemory.length ++ ";\n\n"
              ++ "extern " ++ valueString net1.trainingContext ++ " kOutputs[];\n"
              ++ "const int kOutputsSize = "
              ++ toString net1.trainingContext.getOutputs.length ++ ";\n\n"
              ++ "void " ++ name ++ "Feed(const " ++ valueString net1.trainingContext
              ++ " *input);\n\n"
              ++ "#endif //TINYRNN_STANDALONE_GUARD_" ++ platform1.generateIsoUuid
              ++ "\n"))) := by
  have hheader : standaloneHeader platform1 net1.trainingContext name true
      = "#ifndef TINYRNN_STANDALONE_GUARD_" ++ platform1.generateIsoUuid ++ "\n"
        ++ "#define TINYRNN_STANDALONE_GUARD_" ++ platform1.generateIsoUuid ++ "\n\n"
        ++ "extern " ++ valueString net1.trainingContext ++ " kMemory[];\n"
        ++ "const int kMemorySize = " ++ toString net1.trainingContext.getMemory.length
        ++ ";\n\n"
        ++ "extern " ++ valueString net1.trainingContext ++ " kOutputs[];\n"
        ++ "const int kOutputsSize = " ++ toString net1.trainingContext.getOutputs.length
        ++ ";\n\n"
        ++ "void " ++ name ++ "Feed(const " ++ valueString net1.trainingContext
        ++ " *input);\n\n"
        ++ "#endif //TINYRNN_STANDALONE_GUARD_" ++ platform1.generateIsoUuid ++ "\n" := by
    apply String.ext
    simp only [standaloneHeader, String.data_append, List.append_assoc, Bool.not_true,
      Bool.false_eq_true, if_false]
    rfl
  refine ⟨?_, ?_, hheader, ?_⟩
  rotate_left 2
  · intro kf rf hf
    rw [asStandalone_const platform1 net1 name kf rf hf]
    simp only [Except.map, lookup_header, hheader]
  · cases hf1 : net1.feedKernels with
    | nil =>
      have hf2 : net2.feedKernels = [] := by
        cases h2 : net2.feedKernels with
        | nil => rfl
        | cons k r => simp [hf1, h2] at hfeed
      rw [asStandalone_of_empty platform1 net1 name asConst hf1,
        asStandalone_of_empty platform2 net2 name asConst hf2]
    | cons kf rf1 =>
      obtain ⟨rf2, hf2⟩ : ∃ rf2, net2.feedKernels = kf :: rf2 := by
        cases h2 : net2.feedKernels with
        | nil => simp [hf1, h2] at hfeed
        | cons k r =>
          simp only [hf1, h2, List.head?_cons, Option.some.injEq] at hfeed
          exact ⟨r, by rw [hfeed]⟩
      cases asConst with
      | true =>
        rw [asStandalone_const platform1 net1 name kf rf1 hf1,
          asStandalone_const platform2 net2 name kf rf2 hf2]
        simp only [Except.map, lookup_source]
        rw [standaloneSource_congr platform1 platform2 _ _ name true kf Kernel.new hprint
          hvalue hmem hout]
      | false =>
        have ht := htrain rfl
        cases ht1 : net1.trainKernels with
        | nil =>
          have ht2 : net2.trainKernels = [] := by
            cases h2 : net2.trainKernels with
            | nil => rfl
            | cons k r => simp [ht1, h2] at ht
          rw [asStandalone_untrainable platform1 net1 name kf rf1 hf1 ht1,
            asStandalone_untrainable platform2 net2 name kf rf2 hf2 ht2]
        | cons kt rt1 =>
          obtain ⟨rt2, ht2⟩ : ∃ rt2, net2.trainKernels = kt :: rt2 := by
            cases h2 : net2.trainKernels with
            | nil => simp [ht1, h2] at ht
            | cons k r =>
              simp only [ht1, h2, List.head?_cons, Option.some.injEq] at ht
              exact ⟨r, by rw [ht]⟩
          rw [asStandalone_trainable platform1 net1 name kf kt rf1 rt1 hf1 ht1,
            asStandalone_trainable platform2 net2 name kf kt rf2 rt2 hf2 ht2]
          simp only [Except.map, lookup_source]
          rw [standaloneSource_congr platform1 platform2 _ _ name false kf kt hprint
            hvalue hmem hout]
  · intro other
    simp [HardcodedNetwork.asStandalone]

set_option maxRecDepth 4000 in
/-- Witness of `standalone_first_kernels_only`: two networks with the same buffers
and the same first feed kernel, one of them with a second feed kernel and a train
kernel, exported with `asConst`; the interface text returned for the first. -/
theorem standalone_first_kernels_only_witness :
    Except.map (List.lookup ("net" ++ ".c"))
        (sampleStandaloneNetwork.asStandalone samplePlatform "net" true)
      = Except.map (List.lookup ("net" ++ ".c"))
        ( HardcodedNetwork.asStandalone samplePlatform
          { sampleStandaloneNetwork with
            feedKernels := [feedKernelOf sampleContext 0 [], feedKernelOf sampleContext 1 []]
            trainKernels := [trainKernelOf sampleContext 0 []] } "net" true) ∧
      Except.map (List.lookup ("net" ++ ".h"))
        (sampleStandaloneNetwork.asStandalone samplePlatform "net" true)
      = Except.ok (some
          ("#ifndef TINYRNN_STANDALONE_GUARD_0000\n"
            ++ "#define TINYRNN_STANDALONE_GUARD_0000\n\n"
            ++ "extern double kMemory[];\nconst int kMemorySize = 9;\n\n"
            ++ "extern double kOutputs[];\nconst int kOutputsSize = 1;\n\n"
            ++ "void netFeed(const double *input);\n\n"
            ++ "#endif //TINYRNN_STANDALONE_GUARD_0000\n")) :=
  have h := standalone_first_kernels_only samplePlatform samplePlatform
    sampleStandaloneNetwork
    { sampleStandaloneNetwork with
      feedKernels := [feedKernelOf sampleContext 0 [], feedKernelOf sampleContext 1 []]
      trainKernels := [trainKernelOf sampleContext 0 []] } "net" true
    rfl rfl rfl rfl rfl (fun h => absurd h (by decide))
  ⟨h.1, (h.2.2.2 (feedKernelOf sampleContext 0 []) [] rfl).trans
    (congrArg (fun text => Except.ok (some text)) (by decide))⟩

/-! ## Dispatch -/

theorem feed_foldl_calls (cl : OpenCL) (inputs : RawData) (ks : List Kernel) :
    ∀ (ctx : HardcodedTrainingContext) (calls : List QueueCall),
      (ks.foldl
          (fun (state : HardcodedTrainingContext × List QueueCall) kernel =>
            ({ state.1 with
                getOutputs :=
                  (cl.runFeed kernel inputs state.1.getOutputs state.1.getMemory).1
                getMemory :=
                  (cl.runFeed kernel inputs state.1.getOutputs state.1.getMemory).2 },
              state.2 ++ [QueueCall.enqueueNDRangeKernel kernel] ++ [QueueCall.finish]))
          (ctx, calls)).2
        = calls ++ sequentialDispatch ks := by
  induction ks with
  | nil => intro ctx calls; simp [sequentialDispatch]
  | cons k ks ih =>
    intro ctx calls
    rw [List.foldl_cons, ih]
    simp [sequentialDispatch]

theorem train_foldl_calls (cl : OpenCL) (rate : Value) (targets : RawData)
    (ks : List Kernel) :
    ∀ (ctx : HardcodedTrainingContext) (calls : List QueueCall),
      (ks.foldl
          (fun (state : HardcodedTrainingContext × List QueueCall) kernel =>
            ({ state.1 with
                getMemory := cl.runTrain kernel rate targets state.1.getMemory },
              state.2 ++ [QueueCall.enqueueNDRangeKernel kernel] ++ [QueueCall.finish]))
          (ctx, calls)).2
        = calls ++ sequentialDispatch ks := by
  induction ks with
  | nil => intro ctx calls; simp [sequentialDispatch]
  | cons k ks ih =>
    intro ctx calls
    rw [List.foldl_cons, ih]
    simp [sequentialDispatch]

theorem feed_foldl_buffers (cl : OpenCL) (inputs : RawData) (ks : List Kernel) :
    ∀ (ctx : HardcodedTrainingContext) (calls : List QueueCall),
      ((ks.foldl
          (fun (state : HardcodedTrainingContext × List QueueCall) kernel =>
            ({ state.1 with
                getOutputs :=
                  (cl.runFeed kernel inputs state.1.getOutputs state.1.getMemory).1
                getMemory :=
                  (cl.runFeed kernel inputs state.1.getOutputs state.1.getMemory).2 },
              state.2 ++ [QueueCall.enqueueNDRangeKernel kernel] ++ [QueueCall.finish]))
          (ctx, calls)).1.getOutputs,
        (ks.foldl
          (fun (state : HardcodedTrainingContext × List QueueCall) kernel =>
            ({ state.1 with
                getOutputs :=
                  (cl.runFeed kernel inputs state.1.getOutputs state.1.getMemory).1
                getMemory :=
                  (cl.runFeed kernel inputs state.1.getOutputs state.1.getMemory).2 },
              state.2 ++ [QueueCall.enqueueNDRangeKernel kernel] ++ [QueueCall.finish]))
          (ctx, calls)).1.getMemory)
        = ks.foldl (fun buffers kernel => cl.runFeed kernel inputs buffers.1 buffers.2)
            (ctx.getOutputs, ctx.getMemory) := by
  induction ks with
  | nil => intro ctx calls; rfl
  | cons k ks ih =>
    intro ctx calls
    rw [List.foldl_cons, List.foldl_cons, ih]

theorem feed_buffers (cl : OpenCL) (net : HardcodedNetwork) (inputs : RawData) :
    ((net.feed (Acceleration.enabled cl) inputs).1,
        (net.feed (Acceleration.enabled cl) inputs).2.1.trainingContext.getMemory)
      = net.feedKernels.foldl
          (fun buffers kernel => cl.runFeed kernel inputs buffers.1 buffers.2)
          (net.trainingContext.getOutputs.map (fun _ => Value.zero),
            net.trainingContext.getMemory) := by
  have h := feed_foldl_buffers cl inputs net.feedKernels
    { net.trainingContext with
      getOutputs := net.trainingContext.getOutputs.map fun _ => Value.zero } []
  simpa [HardcodedNetwork.feed] using h

theorem feed_calls (cl : OpenCL) (net : HardcodedNetwork) (inputs : RawData) :
    (net.feed (Acceleration.enabled cl) inputs).2.2 = sequentialDispatch net.feedKernels := by
  have h := feed_foldl_calls cl inputs net.feedKernels
    { net.trainingContext with
      getOutputs := net.trainingContext.getOutputs.map fun _ => Value.zero } []
  simpa [HardcodedNetwork.feed] using h

theorem train_calls (cl : OpenCL) (net : HardcodedNetwork) (rate : Value)
    (targets : RawData) :
    (net.train (Acceleration.enabled cl) rate targets).2
      = sequentialDispatch net.trainKernels := by
  have h := train_foldl_calls cl rate targets net.trainKernels net.trainingContext []
  simpa [HardcodedNetwork.train] using h

/-- C15 as stated fails: with a backend active, a network that was never compiled
(`isBuilt()` false) still has its feed kernel and its train kernel dispatched, and
`feed` returns the outputs buffer, which is not empty. -/
theorem not_built_counterexample :
    sampleUnbuiltNetwork.isBuilt = false ∧
      (sampleUnbuiltNetwork.feed sampleDevice []).1 ≠ [] ∧
      (sampleUnbuiltNetwork.feed sampleDevice []).2.2
        = [QueueCall.enqueueNDRangeKernel (feedKernelOf sampleContext 0 []),
            QueueCall.finish] ∧
      (sampleUnbuiltNetwork.train sampleDevice ⟨0⟩ []).2
        = [QueueCall.enqueueNDRangeKernel (trainKernelOf sampleContext 0 []),
            QueueCall.finish] := by
  decide

/-- C15, amended: without an active backend, for every network, built or not,
`feed(inputs)` returns an empty result, makes no queue call and leaves the network
as it is, and `train(rate, targets)` makes no queue call and leaves the network,
with its shared memory buffer, as it is.  With a backend active neither method
consults `isBuilt()`: each dispatches every kernel of its list, and `feed` returns
the outputs buffer, that is the buffer first filled with zeros and then left by the
dispatched feed kernels in list order (all zeros when there is no feed kernel). -/
theorem not_built_without_backend (net : HardcodedNetwork) (inputs : RawData)
    (rate : Value) (targets : RawData) :
    net.feed Acceleration.disabled inputs = ([], net, []) ∧
      net.train Acceleration.disabled rate targets = (net, []) ∧
      (net.train Acceleration.disabled rate targets).1.trainingContext.getMemory
        = net.trainingContext.getMemory ∧
      ∀ cl : OpenCL,
        (net.feed (Acceleration.enabled cl) inputs).2.2
            = sequentialDispatch net.feedKernels ∧
          (net.train (Acceleration.enabled cl) rate targets).2
            = sequentialDispatch net.trainKernels ∧
          (net.feed (Acceleration.enabled cl) inputs).1
            = (net.feed (Acceleration.enabled cl) inputs).2.1.trainingContext.getOutputs ∧
          ((net.feed (Acceleration.enabled cl) inputs).1,
              (net.feed (Acceleration.enabled cl) inputs).2.1.trainingContext.getMemory)
            = net.feedKernels.foldl
                (fun buffers kernel => cl.runFeed kernel inputs buffers.1 buffers.2)
                (net.trainingContext.getOutputs.map (fun _ => Value.zero),
                  net.trainingContext.getMemory) :=
  ⟨rfl, rfl, rfl, fun cl =>
    ⟨feed_calls cl net inputs, train_calls cl net rate targets, rfl,
      feed_buffers cl net inputs⟩⟩

/-- C16: with a backend active, the queue calls of `feed(inputs)` are, for every
feed kernel in list order, its enqueue followed by a blocking `finish`: every kernel
is enqueued exactly once, and the `finish` of a kernel comes before the enqueue of
the next; `train(rate, targets)` does the same over the train kernels. -/
theorem dispatch_in_order_with_barrier (cl : OpenCL) (net : HardcodedNetwork)
    (inputs : RawData) (rate : Value) (targets : RawData) :
    (net.feed (Acceleration.enabled cl) inputs).2.2
        = (net.feedKernels.map fun kernel =>
            [QueueCall.enqueueNDRangeKernel kernel, QueueCall.finish]).flatten ∧
      (net.train (Acceleration.enabled cl) rate targets).2
        = (net.trainKernels.map fun kernel =>
            [QueueCall.enqueueNDRangeKernel kernel, QueueCall.finish]).flatten ∧
      ((net.feed (Acceleration.enabled cl) inputs).2.2.filterMap fun call =>
          match call with
          | QueueCall.enqueueNDRangeKernel kernel => some kernel
          | QueueCall.finish => none)
        = net.feedKernels ∧
      ((net.train (Acceleration.enabled cl) rate targets).2.filterMap fun call =>
          match call with
          | QueueCall.enqueueNDRangeKernel kernel => some kernel
          | QueueCall.finish => none)
        = net.trainKernels := by
  have hfilter : ∀ ks : List Kernel,
      ((sequentialDispatch ks).filterMap fun call =>
          match call with
          | QueueCall.enqueueNDRangeKernel kernel => some kernel
          | QueueCall.finish => none) = ks := by
    intro ks
    induction ks with
    | nil => rfl
    | cons k ks ih =>
      simp only [sequentialDispatch, List.map_cons, List.flatten_cons, List.cons_append,
        List.nil_append, List.filterMap_cons] at ih ⊢
      rw [ih]
  refine ⟨feed_calls cl net inputs, train_calls cl net rate targets, ?_, ?_⟩
  · rw [feed_calls, hfilter]
  · rw [train_calls, hfilter]

/-! ## The threshold tests -/

/-- C17: with `M = max(B,100)` and a kernel open, in the feed pass a neuron joins
the open kernel exactly when `counter + incoming < M` (otherwise the kernel is
closed and pushed and a new one is started with the neuron), whereas in the train
pass it joins exactly when `counter + incoming ≤ M`; the sums are `size_t` sums.
For two neurons with `Feed.size + Trace.size = 50` and `Train.size = 50` each and
`B = 100`, the feed pass returns two kernels and the train pass returns one kernel
with `numExpressions = 100`. -/
theorem threshold_asymmetry (ctx : HardcodedTrainingContext) (B : Nat) (r : List Kernel)
    (k : Kernel) (c : Nat) (n : HardcodedNeuron) :
    feedNeuronStep ctx (max B 100) ⟨r, some k, c⟩ n
        = (if (c + feedSize n % wordSize) % wordSize < max B 100 then
            ⟨r,
              some { k with
                numExpressions := (c + feedSize n % wordSize) % wordSize
                fullSource := k.fullSource ++ (n.getFeedChunk.build ++ n.getTraceChunk.build) },
              (c + feedSize n % wordSize) % wordSize⟩
          else
            ⟨r ++ [{ k with fullSource := feedClose ctx k.fullSource }],
              some
                { isBuilt := false
                  numExpressions := feedSize n % wordSize
                  fullSource := feedOpening ctx ("feed_" ++ toString (r.length + 1))
                    ++ (n.getFeedChunk.build ++ n.getTraceChunk.build)
                  entryPoint := "feed_" ++ toString (r.length + 1) },
              feedSize n % wordSize⟩) ∧
      trainNeuronStep ctx (max B 100) ⟨r, some k, c⟩ n
        = (if (c + trainSize n % wordSize) % wordSize ≤ max B 100 then
            ⟨r,
              some { k with
                numExpressions := (c + trainSize n % wordSize) % wordSize
                fullSource := k.fullSource ++ n.getTrainChunk.build },
              (c + trainSize n % wordSize) % wordSize⟩
          else
            ⟨r ++ [{ k with fullSource := trainClose k.fullSource }],
              some
                { isBuilt := false
                  numExpressions := trainSize n % wordSize
                  fullSource := trainOpening ctx ("train_" ++ toString (r.length + 1))
                    ++ n.getTrainChunk.build
                  entryPoint := "train_" ++ toString (r.length + 1) },
              trainSize n % wordSize⟩) ∧
      (compileFeedKernels sampleContext
          [[sampleNeuron 30 20 50 "1", sampleNeuron 30 20 50 "2"]] 100).length = 2 ∧
      (compileTrainKernels sampleContext
          [[sampleNeuron 30 20 50 "1", sampleNeuron 30 20 50 "2"]] 100).map
          Kernel.numExpressions = [100] := by
  refine ⟨?_, ?_, by decide, by decide⟩
  · generalize max B 100 = M
    simp only [feedNeuronStep, feedSize]
    have hs : (n.getFeedChunk.getSize + n.getTraceChunk.getSize) % wordSize % wordSize
        = (n.getFeedChunk.getSize + n.getTraceChunk.getSize) % wordSize := Nat.mod_mod _ _
    generalize (n.getFeedChunk.getSize + n.getTraceChunk.getSize) % wordSize = s at hs ⊢
    by_cases h : (c + s) % wordSize < M
    · have h2 : ¬ M ≤ (c + s) % wordSize := by omega
      simp [h, h2]
    · have h2 : M ≤ (c + s) % wordSize := by omega
      simp [h, h2, Kernel.new, hs]
  · generalize max B 100 = M
    simp only [trainNeuronStep, trainSize]
    have hs : n.getTrainChunk.getSize % wordSize % wordSize
        = n.getTrainChunk.getSize % wordSize := Nat.mod_mod _ _
    generalize n.getTrainChunk.getSize % wordSize = s at hs ⊢
    by_cases h : (c + s) % wordSize ≤ M
    · have h2 : ¬ M < (c + s) % wordSize := by omega
      simp [h, h2]
    · have h2 : M < (c + s) % wordSize := by omega
      simp [h, h2, Kernel.new, hs]

/-! ## Shape of the kernel sources -/

theorem mem_enum_map {α β : Type} (f : Nat × α → β) (l : List α) (b : β)
    (h : b ∈ l.enum.map f) : ∃ i a, a ∈ l ∧ b = f (i, a) := by
  obtain ⟨⟨i, a⟩, hmem, rfl⟩ := List.mem_map.1 h
  exact ⟨i, a, List.snd_mem_of_mem_enumFrom hmem, rfl⟩

/-- C18: every feed kernel's `fullSource` is the header of `feed_i`, then
`buildInputsExpressions()`, then the feed and trace chunks of its neurons in order,
then `buildOutputsExpressions()`, then the closing brace line; this holds for every
kernel of the list, the last one included.  Every train kernel's `fullSource` is
the header of `train_i`, then `buildRateExpression()`, then
`buildTargetsExpressions()`, then the train chunks of its neurons in order, then
the closing brace line, with no output-bind fragment. -/
theorem kernel_source_shape (ctx : HardcodedTrainingContext) (layers : HardcodedLayers)
    (B : Nat) :
    (compileFeedKernels ctx layers B).map Kernel.fullSource
        = (feedKernelNeurons layers B).enum.map (fun ig =>
            ("void kernel " ++ ("feed_" ++ toString ig.1)
              ++ "(global const " ++ valueString ctx
              ++ " *input, global " ++ valueString ctx
              ++ " *output, global " ++ valueString ctx ++ " *x) \x7b\n")
            ++ ctx.buildInputsExpressions
            ++ String.join (ig.2.map fun n => n.getFeedChunk.build ++ n.getTraceChunk.build)
            ++ ctx.buildOutputsExpressions ++ "\x7d\n") ∧
      (compileTrainKernels ctx layers B).map Kernel.fullSource
        = (trainKernelNeurons layers B).enum.map (fun ig =>
            ("void kernel " ++ ("train_" ++ toString ig.1)
              ++ "(global const " ++ valueString ctx
              ++ " *rate, global const " ++ valueString ctx
              ++ " *target, global " ++ valueString ctx ++ " *x) \x7b\n")
            ++ ctx.buildRateExpression ++ ctx.buildTargetsExpressions
            ++ String.join (ig.2.map fun n => n.getTrainChunk.build)
            ++ "\x7d\n") ∧
      (∀ k, (compileFeedKernels ctx layers B).getLast? = some k →
        ∃ (i : Nat) (g : List HardcodedNeuron), g ∈ feedKernelNeurons layers B ∧
          k.fullSource
            = feedHeader ctx ("feed_" ++ toString i) ++ ctx.buildInputsExpressions
              ++ feedBody g ++ ctx.buildOutputsExpressions ++ "\x7d\n") ∧
      (∀ k, (compileTrainKernels ctx layers B).getLast? = some k →
        ∃ (i : Nat) (g : List HardcodedNeuron), g ∈ trainKernelNeurons layers B ∧
          k.fullSource
            = trainHeader ctx ("train_" ++ toString i) ++ ctx.buildRateExpression
              ++ ctx.buildTargetsExpressions ++ trainBody g ++ "\x7d\n") := by
  refine ⟨?_, ?_, ?_, ?_⟩
  · rw [compileFeedKernels_eq, List.map_map]
    rfl
  · rw [compileTrainKernels_eq, List.map_map]
    rfl
  · intro k hk
    have hmem := List.mem_of_getLast?_eq_some hk
    rw [compileFeedKernels_eq] at hmem
    obtain ⟨i, g, hg, rfl⟩ := mem_enum_map _ _ _ hmem
    exact ⟨i, g, hg, rfl⟩
  · intro k hk
    have hmem := List.mem_of_getLast?_eq_some hk
    rw [compileTrainKernels_eq] at hmem
    obtain ⟨i, g, hg, rfl⟩ := mem_enum_map _ _ _ hmem
    exact ⟨i, g, hg, rfl⟩

/-! ## Budget floor and layer boundaries -/

/-- C23: for every graph and every budget `B ≤ 100` (the 0 of the graph-less
constructor included), `compileFeedKernels` and `compileTrainKernels` return exactly
the kernel lists they return for budget 100. -/
theorem budget_floor (ctx : HardcodedTrainingContext) (layers : HardcodedLayers) (B : Nat)
    (hB : B ≤ 100) :
    compileFeedKernels ctx layers B = compileFeedKernels ctx layers 100 ∧
      compileTrainKernels ctx layers B = compileTrainKernels ctx layers 100 := by
  have h : trnn_max B 100 = trnn_max 100 100 := by
    rw [trnn_max_eq, trnn_max_eq]
    omega
  constructor
  · simp only [compileFeedKernels, h]
  · simp only [compileTrainKernels, h]

/-- Witness of `budget_floor`: budget 0 on a graph of two layers. -/
theorem budget_floor_witness :
    compileFeedKernels sampleContext
        [[sampleNeuron 30 20 50 "1"], [sampleNeuron 30 20 50 "2", sampleNeuron 300 20 500 "3"]]
        0
      = compileFeedKernels sampleContext
        [[sampleNeuron 30 20 50 "1"], [sampleNeuron 30 20 50 "2", sampleNeuron 300 20 500 "3"]]
        100 ∧
      compileTrainKernels sampleContext
        [[sampleNeuron 30 20 50 "1"], [sampleNeuron 30 20 50 "2", sampleNeuron 300 20 500 "3"]]
        0
      = compileTrainKernels sampleContext
        [[sampleNeuron 30 20 50 "1"], [sampleNeuron 30 20 50 "2", sampleNeuron 300 20 500 "3"]]
        100 :=
  budget_floor sampleContext
    [[sampleNeuron 30 20 50 "1"], [sampleNeuron 30 20 50 "2", sampleNeuron 300 20 500 "3"]]
    0 (by decide)

theorem forwardOrder_single (layers : HardcodedLayers) :
    forwardOrder [layers.flatten] = forwardOrder layers := by
  simp [forwardOrder]

/-- C24: for every graph and budget, `compileFeedKernels` on the layered graph
returns the same kernel list as on the single-layer graph holding the flattened
forward neuron sequence, and likewise `compileTrainKernels`; so a layer boundary
never forces a new kernel and a kernel may span layers: three layers of one neuron
each, of 8 expressions, give one feed kernel and one train kernel holding all
three. -/
theorem layer_boundaries_ignored (ctx : HardcodedTrainingContext) (layers : HardcodedLayers)
    (B : Nat) :
    compileFeedKernels ctx layers B = compileFeedKernels ctx [layers.flatten] B ∧
      compileTrainKernels ctx layers B = compileTrainKernels ctx [layers.flatten] B ∧
      compileFeedKernels sampleContext
          [[sampleNeuron 5 3 7 "1"], [sampleNeuron 5 3 7 "2"], [sampleNeuron 5 3 7 "3"]] 6
        = [feedKernelOf sampleContext 0
            [sampleNeuron 5 3 7 "1", sampleNeuron 5 3 7 "2", sampleNeuron 5 3 7 "3"]] ∧
      compileTrainKernels sampleContext
          [[sampleNeuron 5 3 7 "1"], [sampleNeuron 5 3 7 "2"], [sampleNeuron 5 3 7 "3"]] 6
        = [trainKernelOf sampleContext 0
            [sampleNeuron 5 3 7 "3", sampleNeuron 5 3 7 "2", sampleNeuron 5 3 7 "1"]] := by
  refine ⟨?_, ?_, by decide, by decide⟩
  · rw [compileFeedKernels_eq_run, compileFeedKernels_eq_run, forwardOrder_single]
  · rw [compileTrainKernels_eq_run, compileTrainKernels_eq_run, forwardOrder_single]

/-! ## Conservation of the expression counts and monotonicity in the budget -/

theorem sum_map_sum_flatten (f : HardcodedNeuron → Nat) (gs : List (List HardcodedNeuron)) :
    (gs.map fun g => (g.map f).sum).sum = (gs.flatten.map f).sum := by
  induction gs with
  | nil => rfl
  | cons g gs ih => simp [ih]

theorem sum_le_sum_flatten (f : HardcodedNeuron → Nat) (gs : List (List HardcodedNeuron))
    (g : List HardcodedNeuron) (hg : g ∈ gs) :
    (g.map f).sum ≤ (gs.flatten.map f).sum := by
  induction gs with
  | nil => simp at hg
  | cons g2 gs ih =>
    simp only [List.flatten_cons, List.map_append, List.sum_append]
    rcases List.mem_cons.1 hg with h | h
    · subst h; omega
    · have := ih h; omega

theorem feed_group_sum_lt (layers : HardcodedLayers) (b : Nat)
    (hfit : ((forwardOrder layers).map feedSize).sum < wordSize)
    (g : List HardcodedNeuron) (hg : g ∈ feedKernelNeurons layers b) :
    (g.map feedSize).sum < wordSize := by
  have h := sum_le_sum_flatten feedSize _ g hg
  rw [show (feedKernelNeurons layers b).flatten = forwardOrder layers from
    Packing.flatten_groups _ _] at h
  omega

theorem train_group_sum_lt (layers : HardcodedLayers) (b : Nat)
    (hfit : ((forwardOrder layers).map trainSize).sum < wordSize)
    (g : List HardcodedNeuron) (hg : g ∈ trainKernelNeurons layers b) :
    (g.map trainSize).sum < wordSize := by
  have h := sum_le_sum_flatten trainSize _ g hg
  rw [show (trainKernelNeurons layers b).flatten = (forwardOrder layers).reverse from
    Packing.flatten_groups _ _, List.map_reverse, List.sum_reverse] at h
  omega

theorem sum_numExpressions_enum_map (f : Nat → List HardcodedNeuron → Kernel)
    (sz : HardcodedNeuron → Nat) (gs : List (List HardcodedNeuron))
    (h : ∀ i g, g ∈ gs → (f i g).numExpressions = (g.map sz).sum) :
    ∀ i, (((gs.enumFrom i).map fun ig => f ig.1 ig.2).map Kernel.numExpressions).sum
      = (gs.flatten.map sz).sum := by
  induction gs with
  | nil => intro i; rfl
  | cons g gs ih =>
    intro i
    simp only [List.enumFrom_cons, List.map_cons, List.sum_cons, List.flatten_cons,
      List.map_append, List.sum_append]
    rw [h i g (by simp), ih (fun j g2 hg2 => h j g2 (List.mem_cons_of_mem _ hg2))]

/-- C21 as stated fails on the `size_t` counter: two neurons with
`Feed.size + Trace.size` of `2 ^ 64 - 1` and `1` share the kernel `feed_0`, whose
`numExpressions` is 0, while the sizes of the neurons add up to `2 ^ 64`. -/
theorem expression_counts_counterexample :
    compileFeedKernels sampleContext
        [[sampleNeuron 18446744073709551615 0 0 "1", sampleNeuron 1 0 0 "2"]] 100
      = [feedKernelOf sampleContext 0
          [sampleNeuron 18446744073709551615 0 0 "1", sampleNeuron 1 0 0 "2"]] ∧
      (compileFeedKernels sampleContext
        [[sampleNeuron 18446744073709551615 0 0 "1", sampleNeuron 1 0 0 "2"]] 100).map
          Kernel.numExpressions = [0] ∧
      ((compileFeedKernels sampleContext
        [[sampleNeuron 18446744073709551615 0 0 "1", sampleNeuron 1 0 0 "2"]] 100).map
          Kernel.numExpressions).sum
        ≠ ((forwardOrder
            [[sampleNeuron 18446744073709551615 0 0 "1", sampleNeuron 1 0 0 "2"]]).map
          feedSize).sum := by
  decide

/-- C21, amended: for every graph whose total `Feed.size + Trace.size` and total
`Train.size` are below `2 ^ 64`, and every budget: each feed kernel's `numExpressions` is the sum
of `Feed.size + Trace.size` over exactly the neurons whose chunks it holds, and the
sum of `numExpressions` over all feed kernels is the sum of `Feed.size + Trace.size`
over all neurons of the graph; likewise for the train kernels and `Train.size`. -/
theorem expression_counts_conserved (ctx : HardcodedTrainingContext)
    (layers : HardcodedLayers) (B : Nat)
    (hfeed : ((forwardOrder layers).map feedSize).sum < wordSize)
    (htrain : ((forwardOrder layers).map trainSize).sum < wordSize) :
    List.Forall₂
        (fun k g => (∃ i, k = feedKernelOf ctx i g) ∧
          k.numExpressions = (g.map feedSize).sum)
        (compileFeedKernels ctx layers B) (feedKernelNeurons layers B) ∧
      ((compileFeedKernels ctx layers B).map Kernel.numExpressions).sum
        = ((forwardOrder layers).map feedSize).sum ∧
      List.Forall₂
        (fun k g => (∃ i, k = trainKernelOf ctx i g) ∧
          k.numExpressions = (g.map trainSize).sum)
        (compileTrainKernels ctx layers B) (trainKernelNeurons layers B) ∧
      ((compileTrainKernels ctx layers B).map Kernel.numExpressions).sum
        = ((forwardOrder layers).map trainSize).sum := by
  have hf : ∀ (i : Nat) (g : List HardcodedNeuron), g ∈ feedKernelNeurons layers B →
      (feedKernelOf ctx i g).numExpressions = (g.map feedSize).sum := by
    intro i g hg
    exact Nat.mod_eq_of_lt (feed_group_sum_lt layers B hfeed g hg)
  have ht : ∀ (i : Nat) (g : List HardcodedNeuron), g ∈ trainKernelNeurons layers B →
      (trainKernelOf ctx i g).numExpressions = (g.map trainSize).sum := by
    intro i g hg
    exact Nat.mod_eq_of_lt (train_group_sum_lt layers B htrain g hg)
  refine ⟨?_, ?_, ?_, ?_⟩
  · rw [compileFeedKernels_eq, List.enum]
    apply forall2_enumFrom_map
    intro i g hg
    exact ⟨⟨i, rfl⟩, hf i g hg⟩
  · rw [compileFeedKernels_eq, List.enum,
      sum_numExpressions_enum_map (feedKernelOf ctx) feedSize _ hf 0]
    rw [show (feedKernelNeurons layers B).flatten = forwardOrder layers from
      Packing.flatten_groups _ _]
  · rw [compileTrainKernels_eq, List.enum]
    apply forall2_enumFrom_map
    intro i g hg
    exact ⟨⟨i, rfl⟩, ht i g hg⟩
  · rw [compileTrainKernels_eq, List.enum,
      sum_numExpressions_enum_map (trainKernelOf ctx) trainSize _ ht 0]
    rw [show (trainKernelNeurons layers B).flatten = (forwardOrder layers).reverse from
      Packing.flatten_groups _ _, List.map_reverse, List.sum_reverse]

/-- Witness of `expression_counts_conserved`: three neurons in two layers, budget 6;
the feed kernels count 50, 50 and 320 expressions, the train kernels 500 and 100. -/
theorem expression_counts_conserved_witness :
    ((compileFeedKernels sampleContext
        [[sampleNeuron 30 20 50 "1"], [sampleNeuron 30 20 50 "2", sampleNeuron 300 20 500 "3"]]
        6).map Kernel.numExpressions).sum = 420 ∧
      ((compileTrainKernels sampleContext
        [[sampleNeuron 30 20 50 "1"], [sampleNeuron 30 20 50 "2", sampleNeuron 300 20 500 "3"]]
        6).map Kernel.numExpressions).sum = 600 :=
  have h := expression_counts_conserved sampleContext
    [[sampleNeuron 30 20 50 "1"], [sampleNeuron 30 20 50 "2", sampleNeuron 300 20 500 "3"]]
    6 (by decide) (by decide)
  ⟨h.2.1.trans (by decide), h.2.2.2.trans (by decide)⟩

/-- C22 as stated fails on the `size_t` counter: for five neurons with
`Feed.size + Trace.size` of 150, 10, 50, `2 ^ 64 - 55` and 20, budget 100 gives two
kernels and the larger budget 200 gives four. -/
theorem feed_kernels_monotone_counterexample :
    (compileFeedKernels sampleContext
        [[sampleNeuron 150 0 0 "1", sampleNeuron 10 0 0 "2", sampleNeuron 50 0 0 "3",
          sampleNeuron 18446744073709551561 0 0 "4", sampleNeuron 20 0 0 "5"]] 100).length
        = 2 ∧
      (compileFeedKernels sampleContext
        [[sampleNeuron 150 0 0 "1", sampleNeuron 10 0 0 "2", sampleNeuron 50 0 0 "3",
          sampleNeuron 18446744073709551561 0 0 "4", sampleNeuron 20 0 0 "5"]] 200).length
        = 4 ∧
      ¬ ((compileFeedKernels sampleContext
          [[sampleNeuron 150 0 0 "1", sampleNeuron 10 0 0 "2", sampleNeuron 50 0 0 "3",
            sampleNeuron 18446744073709551561 0 0 "4", sampleNeuron 20 0 0 "5"]] 200).length
        ≤ (compileFeedKernels sampleContext
          [[sampleNeuron 150 0 0 "1", sampleNeuron 10 0 0 "2", sampleNeuron 50 0 0 "3",
            sampleNeuron 18446744073709551561 0 0 "4", sampleNeuron 20 0 0 "5"]]
          100).length) := by
  decide

/-- C22, amended: for every graph whose total `Feed.size + Trace.size` is below
`2 ^ 64` and budgets `B1 ≤ B2`, `compileFeedKernels` with budget `B2` returns no more kernels than
with budget `B1`. -/
theorem feed_kernels_monotone_in_budget (ctx : HardcodedTrainingContext)
    (layers : HardcodedLayers) (B1 B2 : Nat) (hle : B1 ≤ B2)
    (hfit : ((forwardOrder layers).map feedSize).sum < wordSize) :
    (compileFeedKernels ctx layers B2).length ≤ (compileFeedKernels ctx layers B1).length := by
  rw [feedKernels_length, feedKernels_length]
  have hflat : (feedKernelNeurons layers B1).flatten = forwardOrder layers :=
    Packing.flatten_groups _ _
  have hM : max B1 100 ≤ max B2 100 := by omega
  have key := Packing.groups_length_le (feedPacking (max B2 100)) feedSize
    (fun n => Nat.mod_le _ _)
    (by
      intro v w hvw hw
      have : ¬ w ≥ max B2 100 := by simpa [feedPacking] using hw
      have hv : ¬ v ≥ max B2 100 := by omega
      simpa [feedPacking] using hv)
    (feedKernelNeurons layers B1)
    (by
      intro g hg
      have hw := Packing.groups_within _ _ g hg
      rw [trnn_max_eq] at hw
      rcases hw with ⟨n, rfl⟩ | hw
      · right; rfl
      · left
        rw [feedPacking_wsum,
          Nat.mod_eq_of_lt (feed_group_sum_lt layers B1 hfit g hg)] at hw
        have h1 : ¬ (g.map feedSize).sum ≥ max B1 100 := by simpa [feedPacking] using hw
        have h2 : ¬ (g.map feedSize).sum ≥ max B2 100 := by omega
        simpa [feedPacking] using h2)
  rw [hflat] at key
  rw [feedKernelNeurons, trnn_max_eq]
  exact key

/-- Witness of `feed_kernels_monotone_in_budget`: two neurons of 50 expressions
each give two kernels with budget 100 and one kernel with budget 101. -/
theorem feed_kernels_monotone_in_budget_witness :
    (compileFeedKernels sampleContext
        [[sampleNeuron 30 20 50 "1", sampleNeuron 30 20 50 "2"]] 101).length
      ≤ (compileFeedKernels sampleContext
        [[sampleNeuron 30 20 50 "1", sampleNeuron 30 20 50 "2"]] 100).length :=
  feed_kernels_monotone_in_budget sampleContext
    [[sampleNeuron 30 20 50 "1", sampleNeuron 30 20 50 "2"]] 100 101 (by decide) (by decide)

end TinyRNN
